import Mathlib

/-! # Mute timings of the notification-policy configuration

A shallow embedding of `pkg/services/ngalert/provisioning/mute_timings.go`:
the mute-time-interval service (`GetMuteTimings`, `GetMuteTiming`,
`CreateMuteTiming`, `UpdateMuteTiming`, `DeleteMuteTiming`) together with its
helpers `isMuteTimeInUse` and `getMuteTiming`.

The service talks to two collaborators, the configuration store and the
provenance store.  They are represented by an explicit `World` that is threaded
through every operation; each call made to a store is appended to
`World.calls`, so that "the store was never called" is a statement about that
list.
-/

set_option autoImplicit false
set_option linter.dupNamespace false

namespace labels

/-- Kinds of matcher, `labels.MatchType`. -/
inductive MatchType where
  | MatchEqual
  | MatchNotEqual
  | MatchRegexp
  | MatchNotRegexp
  deriving DecidableEq, Repr

/-- A label matcher, `labels.Matcher`; `Typ` is its field `Type`. -/
structure Matcher where
  Typ : MatchType
  Name : String
  Value : String
  deriving DecidableEq, Repr

end labels

namespace config

/-- Modelled from the spec: the time-window specification of a mute time
interval comes from a library whose declaration is not among the sources; the
spec calls it "days/times during which matched alerts are suppressed" and
treats it as opaque.  One window is kept as a range of minutes of the day and a
range of weekdays. -/
structure TimeInterval where
  StartMinute : Nat
  EndMinute : Nat
  Weekdays : List Nat
  deriving DecidableEq, Repr

/-- The interval as stored in the configuration, `config.MuteTimeInterval`. -/
structure MuteTimeInterval where
  Name : String
  TimeIntervals : List TimeInterval
  deriving DecidableEq, Repr

end config

namespace definitions

/-- The provenance tag, a string type in the source; its zero value is the
"none" provenance. -/
abbrev Provenance := String

/-- The zero value of `Provenance`: what a freshly built definition carries. -/
def ProvenanceNone : Provenance := ""

/-- The interval as exchanged with callers, `definitions.MuteTimeInterval`:
the stored interval and its provenance. -/
structure MuteTimeInterval where
  MuteTimeInterval : config.MuteTimeInterval
  Provenance : Provenance
  deriving DecidableEq, Repr

/-- Modelled from the spec: `ResourceID` is declared outside the sources; the
provenance of a mute time interval is keyed by its identity, and the only
identity the service ever supplies (see `DeleteMuteTiming`) is the name. -/
def MuteTimeInterval.ResourceID (mt : definitions.MuteTimeInterval) : String :=
  mt.MuteTimeInterval.Name

/-- Modelled from the spec: `ResourceType` is declared outside the sources; it
is the constant type name under which mute time intervals are recorded. -/
def MuteTimeInterval.ResourceType (_mt : definitions.MuteTimeInterval) : String :=
  "muteTimeInterval"

/-- Modelled from the spec: `Validate` is declared outside the sources.  The
spec describes it as structural validation: the name is non-empty and the time
windows are well formed.  `none` is the nil error. -/
def MuteTimeInterval.Validate (mt : definitions.MuteTimeInterval) : Option String :=
  if mt.MuteTimeInterval.Name = "" then some "missing name in mute time interval"
  else if mt.MuteTimeInterval.TimeIntervals.all
      (fun t => decide (t.StartMinute < t.EndMinute) && decide (t.EndMinute ≤ 1440)
        && t.Weekdays.all (fun d => decide (d < 7)))
  then none
  else some "malformed time interval"

/-- A node of the routing tree, `definitions.Route`.  The children are the
child route nodes of the data model, held inline; a route pointer that may be
nil (the root of a configuration) is an `Option Route`. -/
inductive Route where
  | mk (Receiver : String) (ObjectMatchers : List labels.Matcher) (Continue : Bool)
      (GroupByStr : List String) (MuteTimeIntervals : List String) (Routes : List Route)

namespace Route

def Receiver : Route → String
  | mk r _ _ _ _ _ => r

def ObjectMatchers : Route → List labels.Matcher
  | mk _ m _ _ _ _ => m

def Continue : Route → Bool
  | mk _ _ c _ _ _ => c

def GroupByStr : Route → List String
  | mk _ _ _ g _ _ => g

def MuteTimeIntervals : Route → List String
  | mk _ _ _ _ t _ => t

def Routes : Route → List Route
  | mk _ _ _ _ _ rs => rs

end Route

/-- A notification integration, `definitions.PostableGrafanaReceiver`. -/
structure PostableGrafanaReceiver where
  UID : String
  Name : String
  deriving DecidableEq, Repr

/-- A receiver definition, `definitions.PostableApiReceiver`. -/
structure PostableApiReceiver where
  Name : String
  GrafanaManagedReceivers : List PostableGrafanaReceiver
  deriving DecidableEq, Repr

/-- The routing configuration, `definitions.PostableApiAlertingConfig` with its
embedded `Config`.  `Route = none` is the nil root pointer and
`MuteTimeIntervals = none` is the nil slice. -/
structure PostableApiAlertingConfig where
  Route : Option Route
  MuteTimeIntervals : Option (List config.MuteTimeInterval)
  Receivers : List PostableApiReceiver

/-- The snapshot held by the configuration store, `definitions.PostableUserConfig`. -/
structure PostableUserConfig where
  AlertmanagerConfig : PostableApiAlertingConfig

end definitions

namespace provisioning

open definitions

/-! ## Errors, results and the two stores -/

/-- The errors the service returns.  The first four are the error values the
source names (`makeErrMuteTimingInvalid`, `ErrMuteTimingExists`,
`ErrMuteTimingsNotFound`, `ErrMuteTimingInUse`), which the spec calls
InvalidInput, AlreadyExists, NotFound and Conflict (in-use); the last two are
the failures of the stores: Conflict (stale write) and StoreUnavailable. -/
inductive Err where
  | ErrMuteTimingInvalid (cause : String)
  | ErrMuteTimingExists
  | ErrMuteTimingsNotFound
  | ErrMuteTimingInUse
  | ErrVersionConflict
  | StoreUnavailable (cause : String)
  deriving DecidableEq, Repr

/-- Wrapping of a validation failure, `makeErrMuteTimingInvalid`. -/
def makeErrMuteTimingInvalid (err : String) : Err :=
  Err.ErrMuteTimingInvalid err

/-- What a call of a service method ends in: a value returned with a nil error,
a non-nil error, or a run-time panic (nil dereference, slice bounds). -/
inductive Result (α : Type) where
  | ok (v : α)
  | error (e : Err)
  | panic (cause : String)
  deriving DecidableEq, Repr

/-- One call made to a store. -/
inductive Call where
  | Get (orgID : Int)
  | Save (orgID : Int)
  | GetProvenance (resourceType resourceID : String) (orgID : Int)
  | GetProvenances (orgID : Int) (resourceType : String)
  | SetProvenance (resourceType resourceID : String) (orgID : Int) (tag : Provenance)
  | DeleteProvenance (resourceType resourceID : String) (orgID : Int)
  deriving DecidableEq, Repr

/-- Modelled from the spec: the configuration store and the provenance store
are interfaces implemented outside the sources; §4.3 and §6 of the spec give
their contract.  The world holds what they persist for the organisation at
hand: the snapshot with its concurrency token, and the provenance records keyed
by resource type and resource ID.  `getErr`, `saveErr` and `provErr` say
whether `Get`, the conditional write of `Save`, and the provenance store fail;
`calls` is the list of calls received so far, oldest first. -/
structure World where
  cfg : PostableUserConfig
  token : Nat
  provenances : List ((String × String) × Provenance)
  getErr : Option String
  saveErr : Option String
  provErr : Option String
  calls : List Call

/-- The world after one more call has been received. -/
def World.record (w : World) (c : Call) : World :=
  { w with calls := w.calls ++ [c] }

/-- A snapshot as read from the store, `cfgRevision`: the configuration and the
concurrency token it was read under. -/
structure cfgRevision where
  cfg : PostableUserConfig
  concurrencyToken : Nat

/-- Modelled from the spec: `ConfigStore.Get` returns the snapshot tagged with
its version token, or fails. -/
def configGet (w : World) (orgID : Int) : Except Err cfgRevision × World :=
  let w := w.record (Call.Get orgID)
  match w.getErr with
  | some cause => (Except.error (Err.StoreUnavailable cause), w)
  | none => (Except.ok { cfg := w.cfg, concurrencyToken := w.token }, w)

/-- Modelled from the spec: `ConfigStore.Save` persists the snapshot provided
its token is still current, and only after a successful write applies
`postCommit`; either failure is passed on as it is, and a failing callback does
not undo the write. -/
def configSave (w : World) (rev : cfgRevision) (orgID : Int)
    (postCommit : World → Option Err × World) : Option Err × World :=
  let w := w.record (Call.Save orgID)
  match w.saveErr with
  | some cause => (some (Err.StoreUnavailable cause), w)
  | none =>
    if rev.concurrencyToken = w.token then
      postCommit { w with cfg := rev.cfg, token := w.token + 1 }
    else (some Err.ErrVersionConflict, w)

/-- Modelled from the spec: `ProvenanceStore.GetProvenance`; a resource without
a record has the "none" provenance. -/
def provGetProvenance (w : World) (o : definitions.MuteTimeInterval) (orgID : Int) :
    Except Err Provenance × World :=
  let w := w.record (Call.GetProvenance o.ResourceType o.ResourceID orgID)
  match w.provErr with
  | some cause => (Except.error (Err.StoreUnavailable cause), w)
  | none =>
    (Except.ok ((w.provenances.lookup (o.ResourceType, o.ResourceID)).getD ProvenanceNone), w)

/-- Modelled from the spec: `ProvenanceStore.GetProvenances`, the map from
resource ID to tag of the records of one resource type. -/
def provGetProvenances (w : World) (orgID : Int) (resourceType : String) :
    Except Err (List (String × Provenance)) × World :=
  let w := w.record (Call.GetProvenances orgID resourceType)
  match w.provErr with
  | some cause => (Except.error (Err.StoreUnavailable cause), w)
  | none =>
    (Except.ok ((w.provenances.filter (fun r => r.1.1 == resourceType)).map
      (fun r => (r.1.2, r.2))), w)

/-- Modelled from the spec: `ProvenanceStore.SetProvenance` records the tag of
a resource, replacing an earlier record. -/
def provSetProvenance (w : World) (o : definitions.MuteTimeInterval) (orgID : Int)
    (tag : Provenance) : Option Err × World :=
  let w := w.record (Call.SetProvenance o.ResourceType o.ResourceID orgID tag)
  match w.provErr with
  | some cause => (some (Err.StoreUnavailable cause), w)
  | none =>
    (none, { w with provenances := ((o.ResourceType, o.ResourceID), tag) ::
      w.provenances.filter (fun r => !(r.1 == (o.ResourceType, o.ResourceID))) })

/-- Modelled from the spec: `ProvenanceStore.DeleteProvenance` removes the
record of a resource. -/
def provDeleteProvenance (w : World) (o : definitions.MuteTimeInterval) (orgID : Int) :
    Option Err × World :=
  let w := w.record (Call.DeleteProvenance o.ResourceType o.ResourceID orgID)
  match w.provErr with
  | some cause => (some (Err.StoreUnavailable cause), w)
  | none =>
    (none, { w with provenances :=
      w.provenances.filter (fun r => !(r.1 == (o.ResourceType, o.ResourceID))) })

/-- The revision with its list of mute time intervals replaced. -/
def cfgRevision.withMuteTimeIntervals (rev : cfgRevision)
    (intervals : Option (List config.MuteTimeInterval)) : cfgRevision :=
  { rev with cfg := { AlertmanagerConfig :=
      { rev.cfg.AlertmanagerConfig with MuteTimeIntervals := intervals } } }

/-! ## The helpers of the service -/

mutual
/-- The body of the loop of `isMuteTimeInUse` for one route: the route lists
the name itself, or the recursive call on its children finds it. -/
def isMuteTimeInUse.route (name : String) : Route → Bool
  | Route.mk _ _ _ _ muteTimeIntervals routes =>
    if muteTimeIntervals.any (fun mtName => mtName == name) then true
    else isMuteTimeInUse name routes
termination_by structural r => r
/-- The function `isMuteTimeInUse`: false on the empty slice; otherwise the
routes are visited in order and the first hit returns true. -/
def isMuteTimeInUse (name : String) : List Route → Bool
  | [] => false
  | route :: rest =>
    if isMuteTimeInUse.route name route then true else isMuteTimeInUse name rest
termination_by structural routes => routes
end

/-- The loop of `getMuteTiming` from index `idx` on: the first interval with
the name, and its index. -/
def getMuteTiming.loop (name : String) :
    Nat → List config.MuteTimeInterval → Option (config.MuteTimeInterval × Nat)
  | _, [] => none
  | idx, mt :: rest =>
    if mt.Name == name then some (mt, idx) else getMuteTiming.loop name (idx + 1) rest

/-- The function `getMuteTiming`: the interval and its index, or
`ErrMuteTimingsNotFound` when the collection is nil or holds no such name. -/
def getMuteTiming (rev : cfgRevision) (name : String) :
    Except Err (config.MuteTimeInterval × Nat) :=
  match rev.cfg.AlertmanagerConfig.MuteTimeIntervals with
  | none => Except.error Err.ErrMuteTimingsNotFound
  | some intervals =>
    match getMuteTiming.loop name 0 intervals with
    | some found => Except.ok found
    | none => Except.error Err.ErrMuteTimingsNotFound

/-! ## The service -/

/-- The method `GetMuteTimings`: all mute timings of the organisation, each with
its provenance. -/
def GetMuteTimings (w : World) (orgID : Int) :
    Result (List definitions.MuteTimeInterval) × World :=
  match configGet w orgID with
  | (Except.error err, w) => (Result.error err, w)
  | (Except.ok rev, w) =>
    match rev.cfg.AlertmanagerConfig.MuteTimeIntervals with
    | none => (Result.ok [], w)
    | some intervals =>
      match provGetProvenances w orgID
          (MuteTimeInterval.ResourceType { MuteTimeInterval := ⟨"", []⟩, Provenance := "" }) with
      | (Except.error err, w) => (Result.error err, w)
      | (Except.ok provenances, w) =>
        (Result.ok (intervals.map (fun interval =>
          let d : definitions.MuteTimeInterval :=
            { MuteTimeInterval := interval, Provenance := ProvenanceNone }
          match provenances.lookup d.ResourceID with
          | some prov => { d with Provenance := prov }
          | none => d)), w)

/-- The method `GetMuteTiming`: the mute timing with the given name and its
provenance. -/
def GetMuteTiming (w : World) (name : String) (orgID : Int) :
    Result definitions.MuteTimeInterval × World :=
  match configGet w orgID with
  | (Except.error err, w) => (Result.error err, w)
  | (Except.ok rev, w) =>
    match getMuteTiming rev name with
    | Except.error err => (Result.error err, w)
    | Except.ok (mt, _) =>
      let result : definitions.MuteTimeInterval :=
        { MuteTimeInterval := mt, Provenance := ProvenanceNone }
      match provGetProvenance w result orgID with
      | (Except.error err, w) => (Result.error err, w)
      | (Except.ok prov, w) => (Result.ok { result with Provenance := prov }, w)

/-- The method `CreateMuteTiming`; the returned pointer is an `Option`. -/
def CreateMuteTiming (w : World) (mt : definitions.MuteTimeInterval) (orgID : Int) :
    Result (Option definitions.MuteTimeInterval) × World :=
  match mt.Validate with
  | some err => (Result.error (makeErrMuteTimingInvalid err), w)
  | none =>
    match configGet w orgID with
    | (Except.error err, w) => (Result.error err, w)
    | (Except.ok revision, w) =>
      let intervals := match revision.cfg.AlertmanagerConfig.MuteTimeIntervals with
        | none => []
        | some intervals => intervals
      if intervals.any (fun existing => mt.MuteTimeInterval.Name == existing.Name) then
        (Result.error Err.ErrMuteTimingExists, w)
      else
        let revision := revision.withMuteTimeIntervals (some (intervals ++ [mt.MuteTimeInterval]))
        match configSave w revision orgID
            (fun w => provSetProvenance w mt orgID mt.Provenance) with
        | (some err, w) => (Result.error err, w)
        | (none, w) => (Result.ok (some mt), w)

/-- The method `UpdateMuteTiming`; the returned pointer is an `Option`, and
`Result.ok none` is the return of a nil pointer with a nil error. -/
def UpdateMuteTiming (w : World) (mt : definitions.MuteTimeInterval) (orgID : Int) :
    Result (Option definitions.MuteTimeInterval) × World :=
  match mt.Validate with
  | some err => (Result.error (makeErrMuteTimingInvalid err), w)
  | none =>
    match configGet w orgID with
    | (Except.error err, w) => (Result.error err, w)
    | (Except.ok revision, w) =>
      match revision.cfg.AlertmanagerConfig.MuteTimeIntervals with
      | none => (Result.ok none, w)
      | some intervals =>
        match getMuteTiming revision mt.MuteTimeInterval.Name with
        | Except.error err => (Result.error err, w)
        | Except.ok (_, idx) =>
          if idx < intervals.length then
            let revision :=
              revision.withMuteTimeIntervals (some (intervals.set idx mt.MuteTimeInterval))
            match configSave w revision orgID
                (fun w => provSetProvenance w mt orgID mt.Provenance) with
            | (some err, w) => (Result.error err, w)
            | (none, w) => (Result.ok (some mt), w)
          else (Result.panic "index out of range", w)

/-- The removal loop of `DeleteMuteTiming`.  The `range` clause fixes the
slice it walks, so the loop runs once for each index of the original list and
reads `existing` from the backing array, which the body rewrites: the current
slice is the first `len` cells of `array`.  On a match `intervals[:i]` is within
the capacity, `intervals[i+1:]` is in range only when `i + 1 ≤ len`, and the
`append` moves the cells `i+1 .. len-1` one place down, leaving the cells from
`len-1` on as they are.  `todo` counts the iterations left; `none` is the
slice-bounds panic. -/
def DeleteMuteTiming.loop (name : String) :
    Nat → Nat → List config.MuteTimeInterval → Nat → Option (List config.MuteTimeInterval × Nat)
  | 0, _, array, len => some (array, len)
  | todo + 1, i, array, len =>
    match array[i]? with
    | none => none
    | some existing =>
      if name == existing.Name then
        if i + 1 ≤ len then
          DeleteMuteTiming.loop name todo (i + 1)
            (array.take i ++ (array.take len).drop (i + 1) ++ array.drop (len - 1)) (len - 1)
        else none
      else DeleteMuteTiming.loop name todo (i + 1) array len

/-- The method `DeleteMuteTiming`. -/
def DeleteMuteTiming (w : World) (name : String) (orgID : Int) : Result Unit × World :=
  match configGet w orgID with
  | (Except.error err, w) => (Result.error err, w)
  | (Except.ok revision, w) =>
    match revision.cfg.AlertmanagerConfig.MuteTimeIntervals with
    | none => (Result.ok (), w)
    | some intervals =>
      match revision.cfg.AlertmanagerConfig.Route with
      | none => (Result.panic "nil pointer dereference", w)
      | some route =>
        if isMuteTimeInUse name [route] then (Result.error Err.ErrMuteTimingInUse, w)
        else
          match DeleteMuteTiming.loop name intervals.length 0 intervals intervals.length with
          | none => (Result.panic "slice bounds out of range", w)
          | some (array, len) =>
            let revision := revision.withMuteTimeIntervals (some (array.take len))
            let target : definitions.MuteTimeInterval :=
              { MuteTimeInterval := { Name := name, TimeIntervals := [] },
                Provenance := ProvenanceNone }
            match configSave w revision orgID (fun w => provDeleteProvenance w target orgID) with
            | (some err, w) => (Result.error err, w)
            | (none, w) => (Result.ok (), w)

/-! ## Vocabulary of the statements -/

mutual
/-- The routes of the tree rooted at a route: the route itself and, at every
depth, its descendants. -/
def routesOf : Route → List Route
  | Route.mk a b c d e routes => Route.mk a b c d e routes :: routesOfAll routes
termination_by structural r => r
/-- The routes of a forest at every depth. -/
def routesOfAll : List Route → List Route
  | [] => []
  | route :: rest => routesOf route ++ routesOfAll rest
termination_by structural routes => routes
end

/-- Some route of the forest, at some depth, lists `name` among its mute time
intervals. -/
def referencedIn (name : String) (routes : List Route) : Prop :=
  ∃ r ∈ routesOfAll routes, name ∈ r.MuteTimeIntervals

/-- The provenance recorded for a mute time interval with the given resource
ID, if any. -/
def World.recorded (w : World) (resourceID : String) : Option Provenance :=
  w.provenances.lookup ("muteTimeInterval", resourceID)

/-- The stores do not fail. -/
def World.healthy (w : World) : Prop :=
  w.getErr = none ∧ w.saveErr = none ∧ w.provErr = none

/-- The snapshot with its list of mute time intervals replaced. -/
def withIntervals (cfg : PostableUserConfig)
    (intervals : Option (List config.MuteTimeInterval)) : PostableUserConfig :=
  { AlertmanagerConfig := { cfg.AlertmanagerConfig with MuteTimeIntervals := intervals } }

/-! ## Sample data -/

/-- A route that only carries mute time interval names and children. -/
def sampleRoute (muteTimeIntervals : List String) (routes : List Route) : Route :=
  Route.mk "" [] false [] muteTimeIntervals routes

/-- A mute time interval with one window, 22:00 to 23:00 on every weekday. -/
def sampleInterval (name : String) : config.MuteTimeInterval :=
  { Name := name, TimeIntervals := [{ StartMinute := 1320, EndMinute := 1380, Weekdays := [] }] }

/-- A world whose stores work and have recorded nothing yet. -/
def sampleWorld (root : Option Route) (intervals : Option (List config.MuteTimeInterval)) :
    World :=
  { cfg := ⟨⟨root, intervals, []⟩⟩
    token := 0
    provenances := []
    getErr := none
    saveErr := none
    provErr := none
    calls := [] }

end provisioning

namespace provisioning

open definitions

/-! ## The walk of the usage check, with the routes it examines -/

mutual
/-- The body of the loop of `isMuteTimeInUse` for one route, returning with
the verdict the routes whose `MuteTimeIntervals` were examined, in the order
of examination. -/
def isMuteTimeInUse.visitedRoute (name : String) : Route → Bool × List Route
  | Route.mk a b c d muteTimeIntervals routes =>
    if muteTimeIntervals.any (fun mtName => mtName == name) then
      (true, [Route.mk a b c d muteTimeIntervals routes])
    else
      ((isMuteTimeInUse.visited name routes).1,
        Route.mk a b c d muteTimeIntervals routes :: (isMuteTimeInUse.visited name routes).2)
termination_by structural r => r
/-- The function `isMuteTimeInUse` instrumented with the list of the routes it
examines: the loop stops at the first route whose walk reports a hit. -/
def isMuteTimeInUse.visited (name : String) : List Route → Bool × List Route
  | [] => (false, [])
  | route :: rest =>
    if (isMuteTimeInUse.visitedRoute name route).1 then
      (true, (isMuteTimeInUse.visitedRoute name route).2)
    else
      ((isMuteTimeInUse.visited name rest).1,
        (isMuteTimeInUse.visitedRoute name route).2 ++ (isMuteTimeInUse.visited name rest).2)
termination_by structural routes => routes
end

end provisioning

/-! # The route tree of the migration

A shallow embedding of `pkg/services/ngalert/migration/models/alertmanager.go`:
the helper `Alertmanager` that builds and repairs the routing configuration
during migration.
-/

namespace ngmodels

/-- Modelled from the spec: the reserved label key that marks the legacy
subtree; the constant is declared outside the sources. -/
def MigratedUseLegacyChannelsLabel : String := "__legacy_use_channels__"

/-- Modelled from the spec: the reserved "migrated contact" beginning of the
label names that route to a migrated channel; the constant is declared outside
the sources. -/
def MigratedContactLabelPrefix : String := "__legacy_c_"

/-- Modelled from the spec: the folder-title label the default route groups
by; the constant is declared outside the sources. -/
def FolderTitleLabel : String := "grafana_folder"

end ngmodels

namespace model

/-- Modelled from the spec: the alert-name label the default route groups by;
the constant is declared outside the sources. -/
def AlertNameLabel : String := "alertname"

end model

namespace strings

/-- The library test `strings.HasPrefix s pre`: `s` begins with `pre`. -/
def HasPrefix (s pre : String) : Bool :=
  pre.data.isPrefixOf s.data

end strings

namespace definitions

/-- The route with its child list replaced: an assignment to `r.Routes`. -/
def Route.withRoutes : Route → List Route → Route
  | Route.mk a b c d e _, routes => Route.mk a b c d e routes

/-- The configuration with its root route replaced: an assignment to
`config.AlertmanagerConfig.Route`. -/
def PostableUserConfig.withRoute (config : PostableUserConfig) (route : Route) :
    PostableUserConfig :=
  { AlertmanagerConfig := { config.AlertmanagerConfig with Route := some route } }

/-- The children of the root route; a nil root has none to offer. -/
def PostableUserConfig.rootRoutes (config : PostableUserConfig) : List Route :=
  match config.AlertmanagerConfig.Route with
  | some route => route.Routes
  | none => []

/-- Modelled from the spec: `GetGrafanaReceiverMap` is declared outside the
sources; it is the index from receiver identifier to receiver definition over
the integrations of all receivers, a later entry replacing an earlier one with
the same identifier.  A map is a list of bindings, the newest first. -/
def PostableUserConfig.GetGrafanaReceiverMap (config : PostableUserConfig) :
    List (String × PostableGrafanaReceiver) :=
  config.AlertmanagerConfig.Receivers.foldl
    (fun UIDs r => r.GrafanaManagedReceivers.foldl (fun UIDs gr => (gr.UID, gr) :: UIDs) UIDs) []

end definitions

namespace models

open definitions

/-- What the pointer `legacyRoute` points to: the child of the root route at a
position, or a route that is no longer part of the tree (after
`CleanAlertmanager` has removed it). -/
inductive RouteRef where
  | child (idx : Nat)
  | detached (route : Route)

/-- The helper struct `Alertmanager`.  The two maps are lists of bindings, the
newest first, so that a lookup finds the binding written last. -/
structure Alertmanager where
  config : PostableUserConfig
  legacyRoute : RouteRef
  legacyReceiverToRoute : List (String × Route)
  legacyUIDToReceiver : List (String × PostableGrafanaReceiver)

/-- The route `am.legacyRoute` points to.  The constructor always sets the
pointer to a child of the root, so in every model that can be built the
answer is `some`. -/
def Alertmanager.legacy (am : Alertmanager) : Option Route :=
  match am.legacyRoute with
  | RouteRef.child idx => am.config.rootRoutes[idx]?
  | RouteRef.detached route => some route

/-- The function `createNestedLegacyRoute`; `labels.NewMatcher` with
`MatchEqual` builds the matcher of the given name and value. -/
def createNestedLegacyRoute : Route :=
  Route.mk "" [⟨labels.MatchType.MatchEqual, ngmodels.MigratedUseLegacyChannelsLabel, "true"⟩]
    true [] [] []

/-- The function `createDefaultRoute`. -/
def createDefaultRoute : Route :=
  Route.mk "autogen-contact-point-default" [] false
    [ngmodels.FolderTitleLabel, model.AlertNameLabel] [] [createNestedLegacyRoute]

/-- The function `createBaseConfig`. -/
def createBaseConfig : PostableUserConfig :=
  { AlertmanagerConfig :=
      { Route := some createDefaultRoute
        MuteTimeIntervals := none
        Receivers := [{ Name := "autogen-contact-point-default", GrafanaManagedReceivers := [] }] } }

/-- The function `isNestedLegacyRoute`. -/
def isNestedLegacyRoute (r : Route) : Bool :=
  r.ObjectMatchers.length == 1 &&
    (match r.ObjectMatchers[0]? with
      | some m => m.Name == ngmodels.MigratedUseLegacyChannelsLabel
      | none => false)

/-- The loops `for i, r := range routes` that stop at the first route passing
a test: the index of that route, counted from `i`. -/
def firstIndexFrom (p : Route → Bool) : Nat → List Route → Option Nat
  | _, [] => none
  | i, r :: rest => if p r then some i else firstIndexFrom p (i + 1) rest

/-- The function `getOrCreateNestedLegacyRoute`, given the root route its
caller has made sure of: the root after the call and the position of the
returned route among its children. -/
def getOrCreateNestedLegacyRoute (root : Route) : Route × Nat :=
  match firstIndexFrom isNestedLegacyRoute 0 root.Routes with
  | some idx => (root, idx)
  | none => (root.withRoutes (createNestedLegacyRoute :: root.Routes), 0)

/-- The function `FromPostableUserConfig`; `none` is the nil configuration. -/
def FromPostableUserConfig (config : Option PostableUserConfig) : Alertmanager :=
  let config := match config with
    | none => createBaseConfig
    | some config => config
  let root := match config.AlertmanagerConfig.Route with
    | none => createDefaultRoute
    | some route => route
  let found := getOrCreateNestedLegacyRoute root
  let legacyRoutes := match found.1.Routes[found.2]? with
    | some legacyRoute => legacyRoute.Routes
    | none => []
  { config := config.withRoute found.1
    legacyRoute := RouteRef.child found.2
    legacyReceiverToRoute := legacyRoutes.foldl (fun m r => (r.Receiver, r) :: m) []
    legacyUIDToReceiver := config.GetGrafanaReceiverMap }

/-- The function `NewAlertmanager`. -/
def NewAlertmanager : Alertmanager :=
  FromPostableUserConfig none

/-- The function `CleanAlertmanager`: the returned configuration and the model
after the call; `none` is the nil dereference of an absent root route.  The
removed route stays reachable through a pointer that pointed to it, and a
pointer to a later child follows it one place down. -/
def CleanAlertmanager (am : Alertmanager) : Option (PostableUserConfig × Alertmanager) :=
  match am.config.AlertmanagerConfig.Route with
  | none => none
  | some root =>
    match firstIndexFrom (fun r => isNestedLegacyRoute r && r.Routes.length == 0) 0 root.Routes,
        am.legacyRoute with
    | none, _ => some (am.config, am)
    | some i, legacyRoute =>
      let config := am.config.withRoute (root.withRoutes (root.Routes.eraseIdx i))
      let legacyRoute := match legacyRoute with
        | RouteRef.detached route => RouteRef.detached route
        | RouteRef.child idx =>
          if idx = i then
            (match root.Routes[i]? with
              | some route => RouteRef.detached route
              | none => RouteRef.child idx)
          else if i < idx then RouteRef.child (idx - 1)
          else RouteRef.child idx
      some (config, { am with config := config, legacyRoute := legacyRoute })

/-- The method `AddRoute`; `none` is the nil route.  The append goes through
the pointer `legacyRoute`. -/
def Alertmanager.AddRoute (am : Alertmanager) (route : Option Route) : Alertmanager :=
  match route with
  | none => am
  | some route =>
    let legacyReceiverToRoute := (route.Receiver, route) :: am.legacyReceiverToRoute
    match am.legacyRoute with
    | RouteRef.detached legacyRoute =>
      { am with
        legacyReceiverToRoute := legacyReceiverToRoute
        legacyRoute := RouteRef.detached (legacyRoute.withRoutes (legacyRoute.Routes ++ [route])) }
    | RouteRef.child idx =>
      match am.config.AlertmanagerConfig.Route with
      | none => { am with legacyReceiverToRoute := legacyReceiverToRoute }
      | some root =>
        { am with
          legacyReceiverToRoute := legacyReceiverToRoute
          config := am.config.withRoute (root.withRoutes
            (root.Routes.modify (fun legacyRoute =>
              legacyRoute.withRoutes (legacyRoute.Routes ++ [route])) idx)) }

/-- The method `AddReceiver`; `none` is the nil receiver. -/
def Alertmanager.AddReceiver (am : Alertmanager) (recv : Option PostableGrafanaReceiver) :
    Alertmanager :=
  match recv with
  | none => am
  | some recv =>
    { am with
      config := { AlertmanagerConfig := { am.config.AlertmanagerConfig with
        Receivers := am.config.AlertmanagerConfig.Receivers ++
          [{ Name := recv.Name, GrafanaManagedReceivers := [recv] }] } }
      legacyUIDToReceiver := (recv.UID, recv) :: am.legacyUIDToReceiver }

/-- The method `GetLegacyRoute`: the value and the `ok` of the map lookup. -/
def Alertmanager.GetLegacyRoute (am : Alertmanager) (recv : String) : Option Route :=
  am.legacyReceiverToRoute.lookup recv

/-- The method `GetReceiver`: the value and the `ok` of the map lookup. -/
def Alertmanager.GetReceiver (am : Alertmanager) (uid : String) :
    Option PostableGrafanaReceiver :=
  am.legacyUIDToReceiver.lookup uid

/-- The method `GetContactLabel`. -/
def Alertmanager.GetContactLabel (am : Alertmanager) (uid : String) : String :=
  match am.GetReceiver uid with
  | none => ""
  | some recv =>
    match am.GetLegacyRoute recv.Name with
    | none => ""
    | some route =>
      match route.ObjectMatchers.find? (fun m =>
          m.Typ == labels.MatchType.MatchEqual &&
            strings.HasPrefix m.Name ngmodels.MigratedContactLabelPrefix) with
      | some m => m.Name
      | none => ""

end models

namespace models

open definitions

/-! ## Vocabulary of the statements about the route tree -/

/-- The configuration a bootstrap leaves behind, as the next bootstrap's
input. -/
def bootstrap (config : Option PostableUserConfig) : Option PostableUserConfig :=
  some (FromPostableUserConfig config).config

/-- The number of children of the root route that pass the legacy-subtree
test; an absent configuration or root has none. -/
def legacyCount (config : Option PostableUserConfig) : Nat :=
  match config with
  | none => 0
  | some config => config.rootRoutes.countP isNestedLegacyRoute

end models

namespace models

open definitions

/-- One call on a model after its construction: `AddRoute` or `AddReceiver`. -/
inductive Step where
  | AddRoute (route : Option Route)
  | AddReceiver (recv : Option PostableGrafanaReceiver)

/-- The model after one call. -/
def Alertmanager.step (am : Alertmanager) : Step → Alertmanager
  | Step.AddRoute route => am.AddRoute route
  | Step.AddReceiver recv => am.AddReceiver recv

/-- The model obtained by `FromPostableUserConfig` followed by the given
calls, in order. -/
def built (config : Option PostableUserConfig) (steps : List Step) : Alertmanager :=
  steps.foldl Alertmanager.step (FromPostableUserConfig config)

/-- The pointer `legacyRoute` points to the first child of the root route that
passes the legacy-subtree test. -/
def Alertmanager.anchored (am : Alertmanager) : Prop :=
  ∃ root idx legacyRoute,
    am.config.AlertmanagerConfig.Route = some root ∧
    am.legacyRoute = RouteRef.child idx ∧
    root.Routes[idx]? = some legacyRoute ∧
    isNestedLegacyRoute legacyRoute = true ∧
    ∀ j x, j < idx → root.Routes[j]? = some x → isNestedLegacyRoute x = false

end models

namespace models

open definitions

/-- The index `legacyReceiverToRoute` holds one binding for each child of the
route `legacyRoute` points to, the binding of a later child before that of an
earlier one. -/
def Alertmanager.indexed (am : Alertmanager) : Prop :=
  ∃ legacyRoute, am.legacy = some legacyRoute ∧
    am.legacyReceiverToRoute = (legacyRoute.Routes.map (fun r => (r.Receiver, r))).reverse

end models

/-! # The feature-flag registry

A shallow embedding of `registerFlags` of `pkg/services/featuremgmt/manager.go`.
-/

namespace featuremgmt

/-- The flag definition `FeatureFlag`, with the fields `registerFlags` reads
and writes; the declaration is outside the sources.  `State` is the integer
of the stability level. -/
structure FeatureFlag where
  Name : String
  Description : String
  State : Int
  DocsURL : String
  RequiresDevMode : Bool
  RequiresRestart : Bool
  RequiresLicense : Bool
  Expression : String
  deriving DecidableEq, Repr

/-- The manager `FeatureManager`, with the fields that bear on the registry:
`flags` is the map from name to flag, `none` being the nil map. -/
structure FeatureManager where
  isDevMod : Bool
  flags : Option (String → Option FeatureFlag)

/-- The map with one entry written: `m[name] = flag`. -/
def assign (m : String → Option FeatureFlag) (name : String) (flag : FeatureFlag) :
    String → Option FeatureFlag :=
  fun key => if key = name then some flag else m key

/-- The body of the loop of `registerFlags` for a flag that is already
registered: the selective update of the registered flag by the added one. -/
def registerFlags.merge (flag add : FeatureFlag) : FeatureFlag :=
  { flag with
    Description := if add.Description ≠ flag.Description then add.Description
      else flag.Description
    DocsURL := if add.DocsURL ≠ flag.DocsURL then add.DocsURL else flag.DocsURL
    Expression := if add.Expression ≠ flag.Expression then add.Expression
      else flag.Expression
    State := if add.State > flag.State then add.State else flag.State
    RequiresDevMode := if add.RequiresDevMode then true else flag.RequiresDevMode
    RequiresLicense := if add.RequiresLicense then true else flag.RequiresLicense
    RequiresRestart := if add.RequiresRestart then true else flag.RequiresRestart }

/-- The method `registerFlags`; `none` is the panic of an assignment to an
entry of the nil map. -/
def FeatureManager.registerFlags : FeatureManager → List FeatureFlag → Option FeatureManager
  | fm, [] => some fm
  | fm, add :: rest =>
    if add.Name = "" then FeatureManager.registerFlags fm rest
    else
      match fm.flags with
      | none => none
      | some flags =>
        match flags add.Name with
        | none =>
          FeatureManager.registerFlags { fm with flags := some (assign flags add.Name add) } rest
        | some flag =>
          FeatureManager.registerFlags
            { fm with flags := some (assign flags add.Name (registerFlags.merge flag add)) } rest

/-- The least stable of a state and the states of the flags of a list that
carry the given name. -/
def leastStable (name : String) (state : Int) (flags : List FeatureFlag) : Int :=
  (flags.filter (fun add => add.Name == name)).foldl (fun s add => max s add.State) state

end featuremgmt

/-! # Theorems -/

namespace provisioning

open definitions

/-! ## The usage check -/

theorem any_beq_iff (name : String) (l : List String) :
    l.any (fun mtName => mtName == name) = true ↔ name ∈ l := by
  simp only [List.any_eq_true, beq_iff_eq]
  constructor
  · rintro ⟨x, hx, rfl⟩; exact hx
  · intro h; exact ⟨name, h, rfl⟩

mutual
theorem isMuteTimeInUse_route_iff (name : String) :
    ∀ r : Route, isMuteTimeInUse.route name r = true ↔
      ∃ x ∈ routesOf r, name ∈ x.MuteTimeIntervals
  | Route.mk a b c d e rs => by
    have ih := isMuteTimeInUse_iff name rs
    simp only [isMuteTimeInUse.route, routesOf, List.mem_cons, exists_eq_or_imp]
    by_cases h : e.any (fun mtName => mtName == name) = true
    · simp only [h, if_true, true_iff]
      left
      exact (any_beq_iff name e).mp h
    · simp only [h, if_false, Bool.false_eq_true, ih, referencedIn]
      constructor
      · intro hx; exact Or.inr hx
      · rintro (hx | hx)
        · exact absurd ((any_beq_iff name e).mpr hx) h
        · exact hx
theorem isMuteTimeInUse_iff (name : String) :
    ∀ rs : List Route, isMuteTimeInUse name rs = true ↔ referencedIn name rs
  | [] => by simp [isMuteTimeInUse, referencedIn, routesOfAll]
  | r :: rest => by
    have ih1 := isMuteTimeInUse_route_iff name r
    have ih2 := isMuteTimeInUse_iff name rest
    simp only [referencedIn] at ih2 ⊢
    simp only [isMuteTimeInUse, routesOfAll, List.mem_append]
    by_cases h : isMuteTimeInUse.route name r = true
    · simp only [h, if_true, true_iff]
      obtain ⟨x, hx, hn⟩ := ih1.mp h
      exact ⟨x, Or.inl hx, hn⟩
    · simp only [h, if_false, Bool.false_eq_true, ih2]
      constructor
      · rintro ⟨x, hx, hn⟩; exact ⟨x, Or.inr hx, hn⟩
      · rintro ⟨x, hx | hx, hn⟩
        · exact absurd (ih1.mpr ⟨x, hx, hn⟩) h
        · exact ⟨x, hx, hn⟩
end

/-! ## Deleting -/

theorem configGet_ok (w : World) (orgID : Int) (hget : w.getErr = none) :
    configGet w orgID =
      (Except.ok { cfg := w.cfg, concurrencyToken := w.token }, w.record (Call.Get orgID)) := by
  simp [configGet, World.record, hget]

theorem DeleteMuteTiming.loop_skip (name : String) (array : List config.MuteTimeInterval)
    (len : Nat) :
    ∀ (m todo i : Nat),
      (∀ j x, i ≤ j → j < i + m → array[j]? = some x → x.Name ≠ name) →
      i + m ≤ array.length →
      DeleteMuteTiming.loop name (m + todo) i array len =
        DeleteMuteTiming.loop name todo (i + m) array len := by
  intro m
  induction m with
  | zero => intro todo i _ _; simp
  | succ m ih =>
    intro todo i hne hlen
    have hi : i < array.length := by omega
    have hx : array[i]? = some array[i] := List.getElem?_eq_getElem hi
    have hn : (name == array[i].Name) = false := by
      have := hne i array[i] (Nat.le_refl i) (by omega) hx
      simp only [beq_eq_false_iff_ne, ne_eq]
      exact fun h => this h.symm
    have e1 : m + 1 + todo = (m + todo) + 1 := by omega
    rw [e1, DeleteMuteTiming.loop]
    simp only [hx, hn, Bool.false_eq_true, if_false]
    rw [ih todo (i + 1) (fun j x h1 h2 => hne j x (by omega) (by omega)) (by omega)]
    congr 1
    omega

theorem DeleteMuteTiming.loop_removes (name : String)
    (pre post : List config.MuteTimeInterval) (e : config.MuteTimeInterval)
    (he : e.Name = name)
    (hpre : ∀ x ∈ pre, x.Name ≠ name) (hpost : ∀ x ∈ post, x.Name ≠ name) :
    ∃ array len,
      DeleteMuteTiming.loop name (pre ++ e :: post).length 0 (pre ++ e :: post)
        (pre ++ e :: post).length = some (array, len) ∧
      array.take len = pre ++ post := by
  have hskip := DeleteMuteTiming.loop_skip name (pre ++ e :: post) (pre ++ e :: post).length
    pre.length (post.length + 1) 0
    (fun j x _ h2 hx => by
      have h3 : j < pre.length := by omega
      rw [List.getElem?_append_left h3] at hx
      exact hpre x (List.getElem?_mem hx))
    (by simp)
  have hlen : (pre ++ e :: post).length = pre.length + (post.length + 1) := by simp
  have hat : (pre ++ e :: post)[pre.length]? = some e := by
    rw [List.getElem?_append_right (Nat.le_refl _)]; simp
  have hb : (name == e.Name) = true := by simp [he]
  rw [hlen] at hskip ⊢
  rw [hskip, DeleteMuteTiming.loop]
  simp only [Nat.zero_add, hat, hb, if_true]
  have hle : pre.length + 1 ≤ pre.length + (post.length + 1) := by omega
  simp only [hle, if_true]
  have h1 : List.take pre.length (pre ++ e :: post) = pre := by simp
  have h2 : List.take (pre.length + (post.length + 1)) (pre ++ e :: post) = pre ++ e :: post :=
    List.take_of_length_le (by simp)
  have h3 : List.drop (pre.length + 1) (pre ++ e :: post) = post := by
    rw [show pre ++ e :: post = (pre ++ [e]) ++ post by simp]
    exact List.drop_left' (by simp)
  have h4 : pre.length + (post.length + 1) - 1 = pre.length + post.length := by omega
  rw [h1, h2, h3, h4]
  have hmem : ∀ j x, pre.length + 1 ≤ j →
      (pre ++ post ++ List.drop (pre.length + post.length) (pre ++ e :: post))[j]? = some x →
      x ∈ post := by
    intro j x hj hx
    by_cases hlt : j < pre.length + post.length
    · rw [List.getElem?_append_left (by simpa using hlt),
        List.getElem?_append_right (by omega)] at hx
      exact List.getElem?_mem hx
    · rw [List.getElem?_append_right (by simp; omega), List.getElem?_drop,
        List.getElem?_append_right (by simp; omega)] at hx
      have h5 : pre.length + post.length + (j - (pre ++ post).length) - pre.length
          = (j - pre.length - 1) + 1 := by simp; omega
      rw [h5, List.getElem?_cons_succ] at hx
      exact List.getElem?_mem hx
  have hrest := DeleteMuteTiming.loop_skip name
    (pre ++ post ++ List.drop (pre.length + post.length) (pre ++ e :: post))
    (pre.length + post.length) post.length 0 (pre.length + 1)
    (fun j x h1 _ hx => hpost x (hmem j x h1 hx))
    (by simp; omega)
  rw [Nat.add_zero] at hrest
  rw [hrest, DeleteMuteTiming.loop]
  refine ⟨_, _, rfl, ?_⟩
  rw [List.take_append_of_le_length (by simp)]
  exact List.take_of_length_le (by simp)

/-- C1: when the interval collection and the root route are present and some
route at some depth of the tree lists `name`, `DeleteMuteTiming` returns the
in-use error, and the only store call it makes is the initial `Get`: no `Save`
and no `DeleteProvenance`, so the stored snapshot and the provenance records
are what they were. -/
theorem DeleteMuteTiming_in_use (w : World) (name : String) (orgID : Int)
    (intervals : List config.MuteTimeInterval) (root : Route)
    (hget : w.getErr = none)
    (hint : w.cfg.AlertmanagerConfig.MuteTimeIntervals = some intervals)
    (hroot : w.cfg.AlertmanagerConfig.Route = some root)
    (huse : referencedIn name [root]) :
    (DeleteMuteTiming w name orgID).1 = Result.error Err.ErrMuteTimingInUse ∧
    (DeleteMuteTiming w name orgID).2.cfg = w.cfg ∧
    (DeleteMuteTiming w name orgID).2.provenances = w.provenances ∧
    (DeleteMuteTiming w name orgID).2.calls = w.calls ++ [Call.Get orgID] := by
  have h := (isMuteTimeInUse_iff name [root]).mpr huse
  simp [DeleteMuteTiming, configGet_ok w orgID hget, World.record, hint, hroot, h]

theorem DeleteMuteTiming_in_use_witness :
    (DeleteMuteTiming
      (sampleWorld (some (sampleRoute [] [sampleRoute [] [sampleRoute ["quiet-nights"] []]]))
        (some [sampleInterval "quiet-nights"])) "quiet-nights" 1).1
      = Result.error Err.ErrMuteTimingInUse :=
  (DeleteMuteTiming_in_use
    (sampleWorld (some (sampleRoute [] [sampleRoute [] [sampleRoute ["quiet-nights"] []]]))
      (some [sampleInterval "quiet-nights"])) "quiet-nights" 1
    [sampleInterval "quiet-nights"]
    (sampleRoute [] [sampleRoute [] [sampleRoute ["quiet-nights"] []]]) rfl rfl rfl
    ⟨sampleRoute ["quiet-nights"] [], by simp [routesOfAll, routesOf, sampleRoute],
      by simp [Route.MuteTimeIntervals, sampleRoute]⟩).1

/-! ## Provenance records -/

theorem lookup_filter_self (k : String × String)
    (l : List ((String × String) × definitions.Provenance)) :
    (l.filter (fun r => !(r.1 == k))).lookup k = none := by
  induction l with
  | nil => rfl
  | cons r rest ih =>
    obtain ⟨rk, rv⟩ := r
    by_cases h : rk = k
    · simp [List.filter, h, ih]
    · have h2 : (k == rk) = false := by
        simp only [beq_eq_false_iff_ne, ne_eq]; exact fun h3 => h h3.symm
      have h4 : (rk == k) = false := by
        simp only [beq_eq_false_iff_ne, ne_eq]; exact h
      simp only [List.filter, h4, Bool.not_false, List.lookup, h2]
      exact ih

theorem lookup_filter_other (k k2 : String × String) (hne : k2 ≠ k)
    (l : List ((String × String) × definitions.Provenance)) :
    (l.filter (fun r => !(r.1 == k))).lookup k2 = l.lookup k2 := by
  induction l with
  | nil => rfl
  | cons r rest ih =>
    obtain ⟨rk, rv⟩ := r
    by_cases h : rk = k
    · have h2 : (k2 == rk) = false := by
        simp only [beq_eq_false_iff_ne, ne_eq]; rw [h]; exact hne
      have h4 : (rk == k) = true := by simp [h]
      simp only [List.filter, h4, Bool.not_true, List.lookup, h2]
      exact ih
    · have h4 : (rk == k) = false := by
        simp only [beq_eq_false_iff_ne, ne_eq]; exact h
      simp only [List.filter, h4, Bool.not_false, List.lookup]
      rw [ih]

/-- C2: when the names of the stored intervals are pairwise distinct, the root
route is present, no route at any depth lists `name` and the stores work,
`DeleteMuteTiming` returns no error and saves the old list without its one
entry named `name`: whatever stood before it and after it is kept, in the same
order.  The provenance record of `name` is deleted and no other record is
touched; the calls made are `Get`, `Save` and `DeleteProvenance`. -/
theorem DeleteMuteTiming_removes (w : World) (name : String) (orgID : Int)
    (pre post : List config.MuteTimeInterval) (e : config.MuteTimeInterval) (root : Route)
    (hw : w.healthy)
    (hint : w.cfg.AlertmanagerConfig.MuteTimeIntervals = some (pre ++ e :: post))
    (he : e.Name = name)
    (hnodup : ((pre ++ e :: post).map (fun x => x.Name)).Nodup)
    (hroot : w.cfg.AlertmanagerConfig.Route = some root)
    (hfree : ¬ referencedIn name [root]) :
    (DeleteMuteTiming w name orgID).1 = Result.ok () ∧
    (DeleteMuteTiming w name orgID).2.cfg = withIntervals w.cfg (some (pre ++ post)) ∧
    (DeleteMuteTiming w name orgID).2.recorded name = none ∧
    (∀ id, id ≠ name → (DeleteMuteTiming w name orgID).2.recorded id = w.recorded id) ∧
    (DeleteMuteTiming w name orgID).2.calls = w.calls ++
      [Call.Get orgID, Call.Save orgID, Call.DeleteProvenance "muteTimeInterval" name orgID] := by
  obtain ⟨hget, hsave, hprov⟩ := hw
  have huse : isMuteTimeInUse name [root] = false := by
    cases h : isMuteTimeInUse name [root] with
    | false => rfl
    | true => exact absurd ((isMuteTimeInUse_iff name [root]).mp h) hfree
  rw [List.map_append, List.map_cons, List.nodup_append] at hnodup
  obtain ⟨_, hnd2, hdisj⟩ := hnodup
  have hpre : ∀ x ∈ pre, x.Name ≠ name := by
    intro x hx hxn
    exact hdisj (List.mem_map_of_mem (fun x => x.Name) hx)
      (by rw [hxn, ← he]; exact List.mem_cons_self _ _)
  have hpost : ∀ x ∈ post, x.Name ≠ name := by
    intro x hx hxn
    rw [List.nodup_cons] at hnd2
    exact hnd2.1 (by rw [he, ← hxn]; exact List.mem_map_of_mem (fun x => x.Name) hx)
  obtain ⟨array, len, hloop, htake⟩ := DeleteMuteTiming.loop_removes name pre post e he hpre hpost
  simp only [List.length_append, List.length_cons] at hloop
  have hrun : DeleteMuteTiming w name orgID =
      (Result.ok (), { w with
        cfg := withIntervals w.cfg (some (pre ++ post)),
        token := w.token + 1,
        provenances := w.provenances.filter (fun r => !(r.1 == ("muteTimeInterval", name))),
        calls := w.calls ++ [Call.Get orgID, Call.Save orgID,
          Call.DeleteProvenance "muteTimeInterval" name orgID] }) := by
    simp [DeleteMuteTiming, configGet_ok w orgID hget, World.record, hint, hroot, huse, hloop,
      htake, configSave, hsave, provDeleteProvenance, hprov, cfgRevision.withMuteTimeIntervals,
      withIntervals, MuteTimeInterval.ResourceType, MuteTimeInterval.ResourceID]
  rw [hrun]
  refine ⟨rfl, rfl, ?_, ?_, rfl⟩
  · exact lookup_filter_self _ _
  · intro id hid
    exact lookup_filter_other _ _ (by simpa using hid) _

theorem DeleteMuteTiming_removes_witness :
    (DeleteMuteTiming
      (sampleWorld (some (sampleRoute [] [sampleRoute ["weekends"] []]))
        (some [sampleInterval "weekends", sampleInterval "quiet-nights", sampleInterval "lunch"]))
      "quiet-nights" 1).2.cfg.AlertmanagerConfig.MuteTimeIntervals
      = some [sampleInterval "weekends", sampleInterval "lunch"] := by
  have h := DeleteMuteTiming_removes
    (sampleWorld (some (sampleRoute [] [sampleRoute ["weekends"] []]))
      (some [sampleInterval "weekends", sampleInterval "quiet-nights", sampleInterval "lunch"]))
    "quiet-nights" 1 [sampleInterval "weekends"] [sampleInterval "lunch"]
    (sampleInterval "quiet-nights") (sampleRoute [] [sampleRoute ["weekends"] []])
    ⟨rfl, rfl, rfl⟩ rfl rfl (by decide) rfl
    (fun h => by
      have h2 := (isMuteTimeInUse_iff _ _).mpr h
      revert h2
      decide)
  rw [h.2.1]
  rfl

/-! ## Updating a missing collection, deleting a missing interval -/

/-- C3: on a snapshot whose interval collection is nil, `UpdateMuteTiming` of a
valid definition returns a nil pointer with a nil error, not
`ErrMuteTimingsNotFound`, and saves nothing (the only store call is `Get`);
`GetMuteTiming` on the same snapshot does report `ErrMuteTimingsNotFound`. -/
theorem UpdateMuteTiming_nil_collection_no_error :
    MuteTimeInterval.Validate ⟨sampleInterval "quiet-nights", "api"⟩ = none ∧
    (sampleWorld none none).cfg.AlertmanagerConfig.MuteTimeIntervals = none ∧
    (UpdateMuteTiming (sampleWorld none none) ⟨sampleInterval "quiet-nights", "api"⟩ 1).1
      = Result.ok none ∧
    (UpdateMuteTiming (sampleWorld none none) ⟨sampleInterval "quiet-nights", "api"⟩ 1).2.calls
      = [Call.Get 1] ∧
    (GetMuteTiming (sampleWorld none none) "quiet-nights" 1).1
      = Result.error Err.ErrMuteTimingsNotFound := by
  refine ⟨by decide, rfl, by decide, by decide, by decide⟩

/-- C4: on a snapshot that holds no mute timing named `quiet-nights` but whose
route tree still lists that name, `DeleteMuteTiming` returns the in-use error
instead of no error; with a nil root route (and a non-nil collection) it
dereferences the nil pointer. -/
theorem DeleteMuteTiming_missing_interval_errors :
    (∀ existing ∈ [sampleInterval "lunch"], existing.Name ≠ "quiet-nights") ∧
    (DeleteMuteTiming
      (sampleWorld (some (sampleRoute [] [sampleRoute ["quiet-nights"] []]))
        (some [sampleInterval "lunch"])) "quiet-nights" 1).1
      = Result.error Err.ErrMuteTimingInUse ∧
    (DeleteMuteTiming (sampleWorld none (some [sampleInterval "lunch"])) "quiet-nights" 1).1
      = Result.panic "nil pointer dereference" := by
  refine ⟨by decide, by decide, by decide⟩

/-! ## Creating -/

/-- C5: when a valid definition carries the name of an interval that is already
in the snapshot, `CreateMuteTiming` fails with `ErrMuteTimingExists`; the only
store call is the initial `Get`, so `Save` and `SetProvenance` are not invoked
and the stored snapshot and the provenance records are what they were. -/
theorem CreateMuteTiming_exists (w : World) (mt : definitions.MuteTimeInterval) (orgID : Int)
    (intervals : List config.MuteTimeInterval)
    (hvalid : mt.Validate = none)
    (hget : w.getErr = none)
    (hint : w.cfg.AlertmanagerConfig.MuteTimeIntervals = some intervals)
    (hdup : ∃ existing ∈ intervals, existing.Name = mt.MuteTimeInterval.Name) :
    (CreateMuteTiming w mt orgID).1 = Result.error Err.ErrMuteTimingExists ∧
    (CreateMuteTiming w mt orgID).2.cfg = w.cfg ∧
    (CreateMuteTiming w mt orgID).2.provenances = w.provenances ∧
    (CreateMuteTiming w mt orgID).2.calls = w.calls ++ [Call.Get orgID] := by
  have hany : intervals.any (fun existing => mt.MuteTimeInterval.Name == existing.Name) = true := by
    obtain ⟨existing, hmem, hname⟩ := hdup
    rw [List.any_eq_true]
    exact ⟨existing, hmem, by simp [hname]⟩
  simp [CreateMuteTiming, hvalid, configGet_ok w orgID hget, World.record, hint, hany]

theorem CreateMuteTiming_exists_witness :
    (CreateMuteTiming (sampleWorld none (some [sampleInterval "lunch", sampleInterval "quiet-nights"]))
      ⟨sampleInterval "quiet-nights", "api"⟩ 1).1 = Result.error Err.ErrMuteTimingExists :=
  (CreateMuteTiming_exists
    (sampleWorld none (some [sampleInterval "lunch", sampleInterval "quiet-nights"]))
    ⟨sampleInterval "quiet-nights", "api"⟩ 1
    [sampleInterval "lunch", sampleInterval "quiet-nights"] (by decide) rfl rfl
    ⟨sampleInterval "quiet-nights", by simp, rfl⟩).1

/-- C6: a definition that fails validation is rejected by `CreateMuteTiming`
and by `UpdateMuteTiming` with `ErrMuteTimingInvalid`, and the world comes back
as it went in, its list of store calls included: neither store is called.  A
definition with an empty name always fails validation. -/
theorem invalid_definition_no_store_access (w : World) (mt : definitions.MuteTimeInterval)
    (orgID : Int) (err : String) (hinvalid : mt.Validate = some err) :
    CreateMuteTiming w mt orgID = (Result.error (Err.ErrMuteTimingInvalid err), w) ∧
    UpdateMuteTiming w mt orgID = (Result.error (Err.ErrMuteTimingInvalid err), w) ∧
    (∀ d : definitions.MuteTimeInterval, d.MuteTimeInterval.Name = "" →
      ∀ (w2 : World) (org : Int), ∃ cause,
        CreateMuteTiming w2 d org = (Result.error (Err.ErrMuteTimingInvalid cause), w2) ∧
        UpdateMuteTiming w2 d org = (Result.error (Err.ErrMuteTimingInvalid cause), w2)) := by
  refine ⟨?_, ?_, ?_⟩
  · simp [CreateMuteTiming, hinvalid, makeErrMuteTimingInvalid]
  · simp [UpdateMuteTiming, hinvalid, makeErrMuteTimingInvalid]
  · intro d hd w2 org
    have hv : d.Validate = some "missing name in mute time interval" := by
      simp [MuteTimeInterval.Validate, hd]
    exact ⟨"missing name in mute time interval",
      by simp [CreateMuteTiming, hv, makeErrMuteTimingInvalid],
      by simp [UpdateMuteTiming, hv, makeErrMuteTimingInvalid]⟩

theorem invalid_definition_no_store_access_witness :
    CreateMuteTiming (sampleWorld none none) ⟨⟨"", []⟩, "api"⟩ 1 =
      (Result.error (Err.ErrMuteTimingInvalid "missing name in mute time interval"),
        sampleWorld none none) :=
  (invalid_definition_no_store_access (sampleWorld none none) ⟨⟨"", []⟩, "api"⟩ 1
    "missing name in mute time interval" (by decide)).1

/-! ## Looking an interval up -/

theorem getMuteTiming.loop_none (name : String) :
    ∀ (l : List config.MuteTimeInterval) (idx : Nat),
      (∀ existing ∈ l, existing.Name ≠ name) → getMuteTiming.loop name idx l = none := by
  intro l
  induction l with
  | nil => intro idx _; rfl
  | cons a rest ih =>
    intro idx h
    have ha : (a.Name == name) = false := by
      simp only [beq_eq_false_iff_ne, ne_eq]; exact h a (List.mem_cons_self _ _)
    simp only [getMuteTiming.loop, ha, Bool.false_eq_true, if_false]
    exact ih (idx + 1) (fun x hx => h x (List.mem_cons_of_mem _ hx))

theorem getMuteTiming.loop_append (name : String) (m : config.MuteTimeInterval)
    (hm : m.Name = name) :
    ∀ (l : List config.MuteTimeInterval) (idx : Nat),
      (∀ existing ∈ l, existing.Name ≠ name) →
      getMuteTiming.loop name idx (l ++ [m]) = some (m, idx + l.length) := by
  intro l
  induction l with
  | nil => intro idx _; simp [getMuteTiming.loop, hm]
  | cons a rest ih =>
    intro idx h
    have ha : (a.Name == name) = false := by
      simp only [beq_eq_false_iff_ne, ne_eq]; exact h a (List.mem_cons_self _ _)
    have ih2 := ih (idx + 1) (fun x hx => h x (List.mem_cons_of_mem _ hx))
    rw [List.cons_append, getMuteTiming.loop]
    simp only [ha, Bool.false_eq_true, if_false, ih2, List.length_cons]
    congr 2
    omega

theorem getMuteTiming.loop_findIdx (name : String) :
    ∀ (l : List config.MuteTimeInterval) (idx : Nat),
      (∃ existing ∈ l, existing.Name = name) →
      ∃ mt, getMuteTiming.loop name idx l =
          some (mt, idx + l.findIdx (fun e => e.Name == name)) ∧
        l.findIdx (fun e => e.Name == name) < l.length := by
  intro l
  induction l with
  | nil => intro idx h; obtain ⟨x, hx, _⟩ := h; cases hx
  | cons a rest ih =>
    intro idx h
    by_cases ha : a.Name = name
    · refine ⟨a, ?_, ?_⟩
      · simp [getMuteTiming.loop, ha, List.findIdx_cons]
      · simp [List.findIdx_cons, ha]
    · have hb : (a.Name == name) = false := by
        simp only [beq_eq_false_iff_ne, ne_eq]; exact ha
      have hrest : ∃ existing ∈ rest, existing.Name = name := by
        obtain ⟨x, hx, hxn⟩ := h
        rcases List.mem_cons.mp hx with rfl | hx2
        · exact absurd hxn ha
        · exact ⟨x, hx2, hxn⟩
      obtain ⟨mt, h1, h2⟩ := ih (idx + 1) hrest
      refine ⟨mt, ?_, ?_⟩
      · simp only [getMuteTiming.loop, hb, Bool.false_eq_true, if_false, h1, List.findIdx_cons,
          cond_false]
        congr 2
        omega
      · simp only [List.findIdx_cons, hb, cond_false, List.length_cons]
        omega

theorem getMuteTiming.loop_set (name : String) (m : config.MuteTimeInterval)
    (hm : m.Name = name) :
    ∀ (l : List config.MuteTimeInterval) (idx j : Nat) (mt0 : config.MuteTimeInterval),
      getMuteTiming.loop name idx l = some (mt0, j) →
      idx ≤ j ∧ j - idx < l.length ∧
        getMuteTiming.loop name idx (l.set (j - idx) m) = some (m, j) := by
  intro l
  induction l with
  | nil => intro idx j mt0 h; simp [getMuteTiming.loop] at h
  | cons a rest ih =>
    intro idx j mt0 h
    by_cases ha : a.Name = name
    · simp only [getMuteTiming.loop, ha, beq_self_eq_true, if_true, Option.some.injEq,
        Prod.mk.injEq] at h
      obtain ⟨_, rfl⟩ := h
      simp [getMuteTiming.loop, hm]
    · have hb : (a.Name == name) = false := by
        simp only [beq_eq_false_iff_ne, ne_eq]; exact ha
      simp only [getMuteTiming.loop, hb, Bool.false_eq_true, if_false] at h
      obtain ⟨h1, h2, h3⟩ := ih (idx + 1) j mt0 h
      have e : j - idx = (j - (idx + 1)) + 1 := by omega
      refine ⟨by omega, by simp only [List.length_cons]; omega, ?_⟩
      rw [e, List.set_cons_succ]
      simp only [getMuteTiming.loop, hb, Bool.false_eq_true, if_false]
      exact h3

/-! ## Creating and reading back -/

theorem CreateMuteTiming_run (w : World) (mt : definitions.MuteTimeInterval) (orgID : Int)
    (hvalid : mt.Validate = none) (hw : w.healthy)
    (hfresh : ∀ existing ∈ (w.cfg.AlertmanagerConfig.MuteTimeIntervals).getD [],
      existing.Name ≠ mt.MuteTimeInterval.Name) :
    CreateMuteTiming w mt orgID =
      (Result.ok (some mt), { w with
        cfg := withIntervals w.cfg
          (some ((w.cfg.AlertmanagerConfig.MuteTimeIntervals).getD [] ++ [mt.MuteTimeInterval])),
        token := w.token + 1,
        provenances := (("muteTimeInterval", mt.MuteTimeInterval.Name), mt.Provenance) ::
          w.provenances.filter
            (fun r => !(r.1 == ("muteTimeInterval", mt.MuteTimeInterval.Name))),
        calls := w.calls ++ [Call.Get orgID, Call.Save orgID,
          Call.SetProvenance "muteTimeInterval" mt.MuteTimeInterval.Name orgID mt.Provenance] }) := by
  obtain ⟨hget, hsave, hprov⟩ := hw
  cases hint : w.cfg.AlertmanagerConfig.MuteTimeIntervals with
  | none =>
    simp [CreateMuteTiming, hvalid, configGet_ok w orgID hget, World.record, hint, configSave,
      hsave, provSetProvenance, hprov, cfgRevision.withMuteTimeIntervals, withIntervals,
      MuteTimeInterval.ResourceType, MuteTimeInterval.ResourceID]
  | some l =>
    rw [hint] at hfresh
    simp [CreateMuteTiming, hvalid, configGet_ok w orgID hget, World.record, hint, configSave,
      hsave, provSetProvenance, hprov, cfgRevision.withMuteTimeIntervals, withIntervals,
      MuteTimeInterval.ResourceType, MuteTimeInterval.ResourceID]
    intro x hx hxn
    exact hfresh x hx hxn.symm

/-- C8: for a valid definition whose name is not yet present, with working
stores, `CreateMuteTiming` returns the supplied definition and saves the old
list (a nil collection counting as empty) followed by the new interval as last
entry; the provenance of the new name becomes the supplied tag, every other
record is kept, and the calls made are `Get`, `Save` and `SetProvenance`. -/
theorem CreateMuteTiming_appends (w : World) (mt : definitions.MuteTimeInterval) (orgID : Int)
    (hvalid : mt.Validate = none) (hw : w.healthy)
    (hfresh : ∀ existing ∈ (w.cfg.AlertmanagerConfig.MuteTimeIntervals).getD [],
      existing.Name ≠ mt.MuteTimeInterval.Name) :
    (CreateMuteTiming w mt orgID).1 = Result.ok (some mt) ∧
    (CreateMuteTiming w mt orgID).2.cfg = withIntervals w.cfg
      (some ((w.cfg.AlertmanagerConfig.MuteTimeIntervals).getD [] ++ [mt.MuteTimeInterval])) ∧
    (CreateMuteTiming w mt orgID).2.recorded mt.MuteTimeInterval.Name = some mt.Provenance ∧
    (∀ id, id ≠ mt.MuteTimeInterval.Name →
      (CreateMuteTiming w mt orgID).2.recorded id = w.recorded id) ∧
    (CreateMuteTiming w mt orgID).2.calls = w.calls ++ [Call.Get orgID, Call.Save orgID,
      Call.SetProvenance "muteTimeInterval" mt.MuteTimeInterval.Name orgID mt.Provenance] := by
  rw [CreateMuteTiming_run w mt orgID hvalid hw hfresh]
  refine ⟨rfl, rfl, ?_, ?_, rfl⟩
  · simp [World.recorded, List.lookup]
  · intro id hid
    have hk : (("muteTimeInterval", id) == ("muteTimeInterval", mt.MuteTimeInterval.Name)) = false := by
      simp only [beq_eq_false_iff_ne, ne_eq, Prod.mk.injEq, true_and]; exact hid
    simp only [World.recorded, List.lookup, hk]
    exact lookup_filter_other _ _ (by simpa using hid) _

theorem CreateMuteTiming_appends_witness :
    (CreateMuteTiming (sampleWorld none (some [sampleInterval "lunch"]))
      ⟨sampleInterval "quiet-nights", "api"⟩ 1).2.cfg.AlertmanagerConfig.MuteTimeIntervals
      = some [sampleInterval "lunch", sampleInterval "quiet-nights"] := by
  have h := CreateMuteTiming_appends (sampleWorld none (some [sampleInterval "lunch"]))
    ⟨sampleInterval "quiet-nights", "api"⟩ 1 (by decide) ⟨rfl, rfl, rfl⟩ (by decide)
  rw [h.2.1]
  rfl

theorem CreateMuteTiming_ok_inv (w : World) (mt : definitions.MuteTimeInterval) (orgID : Int)
    (v : Option definitions.MuteTimeInterval)
    (h : (CreateMuteTiming w mt orgID).1 = Result.ok v) :
    mt.Validate = none ∧ w.healthy ∧
      ∀ existing ∈ (w.cfg.AlertmanagerConfig.MuteTimeIntervals).getD [],
        existing.Name ≠ mt.MuteTimeInterval.Name := by
  cases hv : mt.Validate with
  | some e => simp [CreateMuteTiming, hv] at h
  | none =>
    cases hg : w.getErr with
    | some e => simp [CreateMuteTiming, hv, configGet, World.record, hg] at h
    | none =>
      cases hs : w.saveErr with
      | some e =>
        cases hint : w.cfg.AlertmanagerConfig.MuteTimeIntervals <;>
        · simp only [CreateMuteTiming, hv, configGet_ok w orgID hg, World.record, hint,
            configSave, hs] at h
          split at h <;> simp at h
      | none =>
        cases hp : w.provErr with
        | some e =>
          cases hint : w.cfg.AlertmanagerConfig.MuteTimeIntervals <;>
          · simp only [CreateMuteTiming, hv, configGet_ok w orgID hg, World.record, hint,
              configSave, hs, provSetProvenance, hp, cfgRevision.withMuteTimeIntervals] at h
            split at h <;> simp at h
        | none =>
          refine ⟨rfl, ⟨hg, hs, hp⟩, ?_⟩
          cases hint : w.cfg.AlertmanagerConfig.MuteTimeIntervals with
          | none => intro x hx; simp at hx
          | some l =>
            intro x hx hxn
            have hany : l.any (fun existing => mt.MuteTimeInterval.Name == existing.Name)
                = true := by
              rw [List.any_eq_true]
              exact ⟨x, by simpa using hx, by simp [hxn]⟩
            simp [CreateMuteTiming, hv, configGet_ok w orgID hg, World.record, hint, hany] at h

theorem GetMuteTiming_found (w : World) (name : String) (orgID : Int)
    (l : List config.MuteTimeInterval) (mt : config.MuteTimeInterval) (idx : Nat)
    (hget : w.getErr = none) (hprov : w.provErr = none)
    (hint : w.cfg.AlertmanagerConfig.MuteTimeIntervals = some l)
    (hloop : getMuteTiming.loop name 0 l = some (mt, idx)) :
    (GetMuteTiming w name orgID).1 = Result.ok
      { MuteTimeInterval := mt, Provenance := (w.recorded mt.Name).getD ProvenanceNone } := by
  simp [GetMuteTiming, configGet_ok w orgID hget, World.record, getMuteTiming, hint, hloop,
    provGetProvenance, hprov, World.recorded, MuteTimeInterval.ResourceType,
    MuteTimeInterval.ResourceID]

/-! ## Updating -/

theorem UpdateMuteTiming_run (w : World) (mt : definitions.MuteTimeInterval) (orgID : Int)
    (l : List config.MuteTimeInterval) (mt0 : config.MuteTimeInterval) (idx : Nat)
    (hvalid : mt.Validate = none) (hw : w.healthy)
    (hint : w.cfg.AlertmanagerConfig.MuteTimeIntervals = some l)
    (hloop : getMuteTiming.loop mt.MuteTimeInterval.Name 0 l = some (mt0, idx)) :
    UpdateMuteTiming w mt orgID =
      (Result.ok (some mt), { w with
        cfg := withIntervals w.cfg (some (l.set idx mt.MuteTimeInterval)),
        token := w.token + 1,
        provenances := (("muteTimeInterval", mt.MuteTimeInterval.Name), mt.Provenance) ::
          w.provenances.filter
            (fun r => !(r.1 == ("muteTimeInterval", mt.MuteTimeInterval.Name))),
        calls := w.calls ++ [Call.Get orgID, Call.Save orgID,
          Call.SetProvenance "muteTimeInterval" mt.MuteTimeInterval.Name orgID mt.Provenance] }) := by
  obtain ⟨hget, hsave, hprov⟩ := hw
  have hidx : idx < l.length := by
    have := (getMuteTiming.loop_set mt.MuteTimeInterval.Name mt.MuteTimeInterval rfl l 0 idx mt0
      hloop).2.1
    simpa using this
  simp [UpdateMuteTiming, hvalid, configGet_ok w orgID hget, World.record, hint, getMuteTiming,
    hloop, hidx, configSave, hsave, provSetProvenance, hprov,
    cfgRevision.withMuteTimeIntervals, withIntervals, MuteTimeInterval.ResourceType,
    MuteTimeInterval.ResourceID]

theorem UpdateMuteTiming_ok_inv (w : World) (mt : definitions.MuteTimeInterval) (orgID : Int)
    (l : List config.MuteTimeInterval) (v : Option definitions.MuteTimeInterval)
    (hint : w.cfg.AlertmanagerConfig.MuteTimeIntervals = some l)
    (h : (UpdateMuteTiming w mt orgID).1 = Result.ok v) :
    mt.Validate = none ∧ w.healthy ∧
      ∃ mt0 idx, getMuteTiming.loop mt.MuteTimeInterval.Name 0 l = some (mt0, idx) := by
  cases hv : mt.Validate with
  | some e => simp [UpdateMuteTiming, hv] at h
  | none =>
    cases hg : w.getErr with
    | some e => simp [UpdateMuteTiming, hv, configGet, World.record, hg] at h
    | none =>
      cases hloop : getMuteTiming.loop mt.MuteTimeInterval.Name 0 l with
      | none =>
        simp [UpdateMuteTiming, hv, configGet_ok w orgID hg, World.record, hint, getMuteTiming,
          hloop] at h
      | some found =>
        obtain ⟨mt0, idx⟩ := found
        have hidx : idx < l.length := by
          have := (getMuteTiming.loop_set mt.MuteTimeInterval.Name mt.MuteTimeInterval rfl l 0
            idx mt0 hloop).2.1
          simpa using this
        cases hs : w.saveErr with
        | some e =>
          simp [UpdateMuteTiming, hv, configGet_ok w orgID hg, World.record, hint,
            getMuteTiming, hloop, hidx, configSave, hs] at h
        | none =>
          cases hp : w.provErr with
          | some e =>
            simp [UpdateMuteTiming, hv, configGet_ok w orgID hg, World.record, hint,
              getMuteTiming, hloop, hidx, configSave, hs, provSetProvenance, hp,
              cfgRevision.withMuteTimeIntervals] at h
          | none => exact ⟨rfl, ⟨hg, hs, hp⟩, mt0, idx, rfl⟩

/-! ## Round trip -/

theorem GetMuteTiming_after_create (w : World) (X : definitions.MuteTimeInterval) (orgID : Int)
    (v : Option definitions.MuteTimeInterval)
    (h : (CreateMuteTiming w X orgID).1 = Result.ok v) :
    v = some X ∧
    (CreateMuteTiming w X orgID).2.cfg.AlertmanagerConfig.MuteTimeIntervals =
      some ((w.cfg.AlertmanagerConfig.MuteTimeIntervals).getD [] ++ [X.MuteTimeInterval]) ∧
    (GetMuteTiming (CreateMuteTiming w X orgID).2 X.MuteTimeInterval.Name orgID).1
      = Result.ok X := by
  obtain ⟨hvalid, hw, hfresh⟩ := CreateMuteTiming_ok_inv w X orgID v h
  have hrun := CreateMuteTiming_run w X orgID hvalid hw hfresh
  have hg : (CreateMuteTiming w X orgID).2.getErr = none := by rw [hrun]; exact hw.1
  have hp : (CreateMuteTiming w X orgID).2.provErr = none := by rw [hrun]; exact hw.2.2
  have hi : (CreateMuteTiming w X orgID).2.cfg.AlertmanagerConfig.MuteTimeIntervals =
      some ((w.cfg.AlertmanagerConfig.MuteTimeIntervals).getD [] ++ [X.MuteTimeInterval]) := by
    rw [hrun]; rfl
  have hr : (CreateMuteTiming w X orgID).2.recorded X.MuteTimeInterval.Name
      = some X.Provenance := by
    rw [hrun]; simp [World.recorded, List.lookup]
  have hloop := getMuteTiming.loop_append X.MuteTimeInterval.Name X.MuteTimeInterval rfl
    ((w.cfg.AlertmanagerConfig.MuteTimeIntervals).getD []) 0 hfresh
  refine ⟨?_, hi, ?_⟩
  · rw [hrun] at h; simpa using h.symm
  · rw [GetMuteTiming_found (CreateMuteTiming w X orgID).2 X.MuteTimeInterval.Name orgID _
      X.MuteTimeInterval _ hg hp hi hloop, hr]
    rfl

theorem GetMuteTiming_after_update (w : World) (X : definitions.MuteTimeInterval) (orgID : Int)
    (l : List config.MuteTimeInterval) (v : Option definitions.MuteTimeInterval)
    (hint : w.cfg.AlertmanagerConfig.MuteTimeIntervals = some l)
    (h : (UpdateMuteTiming w X orgID).1 = Result.ok v) :
    v = some X ∧
    (GetMuteTiming (UpdateMuteTiming w X orgID).2 X.MuteTimeInterval.Name orgID).1
      = Result.ok X := by
  obtain ⟨hvalid, hw, mt0, idx, hloop⟩ := UpdateMuteTiming_ok_inv w X orgID l v hint h
  have hrun := UpdateMuteTiming_run w X orgID l mt0 idx hvalid hw hint hloop
  have hg : (UpdateMuteTiming w X orgID).2.getErr = none := by rw [hrun]; exact hw.1
  have hp : (UpdateMuteTiming w X orgID).2.provErr = none := by rw [hrun]; exact hw.2.2
  have hi : (UpdateMuteTiming w X orgID).2.cfg.AlertmanagerConfig.MuteTimeIntervals =
      some (l.set idx X.MuteTimeInterval) := by
    rw [hrun]; rfl
  have hr : (UpdateMuteTiming w X orgID).2.recorded X.MuteTimeInterval.Name
      = some X.Provenance := by
    rw [hrun]; simp [World.recorded, List.lookup]
  have hset := (getMuteTiming.loop_set X.MuteTimeInterval.Name X.MuteTimeInterval rfl l 0 idx
    mt0 hloop).2.2
  rw [Nat.sub_zero] at hset
  refine ⟨?_, ?_⟩
  · rw [hrun] at h; simpa using h.symm
  · rw [GetMuteTiming_found (UpdateMuteTiming w X orgID).2 X.MuteTimeInterval.Name orgID _
      X.MuteTimeInterval _ hg hp hi hset, hr]
    rfl

/-- C7: over stores that return what was last saved, when `CreateMuteTiming` of
`X` succeeds, `GetMuteTiming` of `X`'s name returns `X`'s interval with the
provenance passed in `X`; when afterwards `UpdateMuteTiming` of a definition
`X2` with the same name succeeds, `GetMuteTiming` of that name returns `X2`'s
interval with `X2`'s provenance.  The two methods return the definitions they
were given. -/
theorem create_update_get_round_trip (w : World) (X X2 : definitions.MuteTimeInterval)
    (orgID : Int) (v v2 : Option definitions.MuteTimeInterval)
    (hcreate : (CreateMuteTiming w X orgID).1 = Result.ok v)
    (hname : X2.MuteTimeInterval.Name = X.MuteTimeInterval.Name)
    (hupdate : (UpdateMuteTiming (CreateMuteTiming w X orgID).2 X2 orgID).1 = Result.ok v2) :
    v = some X ∧
    (GetMuteTiming (CreateMuteTiming w X orgID).2 X.MuteTimeInterval.Name orgID).1
      = Result.ok { MuteTimeInterval := X.MuteTimeInterval, Provenance := X.Provenance } ∧
    v2 = some X2 ∧
    (GetMuteTiming (UpdateMuteTiming (CreateMuteTiming w X orgID).2 X2 orgID).2
        X.MuteTimeInterval.Name orgID).1
      = Result.ok { MuteTimeInterval := X2.MuteTimeInterval, Provenance := X2.Provenance } := by
  obtain ⟨h1, h2, h3⟩ := GetMuteTiming_after_create w X orgID v hcreate
  obtain ⟨h4, h5⟩ := GetMuteTiming_after_update _ X2 orgID _ v2 h2 hupdate
  rw [hname] at h5
  exact ⟨h1, h3, h4, h5⟩

theorem create_update_get_round_trip_witness :
    (GetMuteTiming (CreateMuteTiming (sampleWorld none none)
        ⟨sampleInterval "quiet-nights", "api"⟩ 1).2 "quiet-nights" 1).1
      = Result.ok ⟨sampleInterval "quiet-nights", "api"⟩ ∧
    (GetMuteTiming (UpdateMuteTiming (CreateMuteTiming (sampleWorld none none)
        ⟨sampleInterval "quiet-nights", "api"⟩ 1).2 ⟨⟨"quiet-nights", []⟩, "file"⟩ 1).2
        "quiet-nights" 1).1
      = Result.ok ⟨⟨"quiet-nights", []⟩, "file"⟩ :=
  have h := create_update_get_round_trip (sampleWorld none none)
    ⟨sampleInterval "quiet-nights", "api"⟩ ⟨⟨"quiet-nights", []⟩, "file"⟩ 1
    (some ⟨sampleInterval "quiet-nights", "api"⟩) (some ⟨⟨"quiet-nights", []⟩, "file"⟩)
    (by decide) rfl (by decide)
  ⟨h.2.1, h.2.2.2⟩

/-- C9: for a valid definition whose name is in the snapshot, with working
stores, `UpdateMuteTiming` saves a list of the same length that holds the
definition's interval at the index of the first interval with that name and, at
every other index, the entry that was there before. -/
theorem UpdateMuteTiming_in_place (w : World) (mt : definitions.MuteTimeInterval) (orgID : Int)
    (intervals : List config.MuteTimeInterval)
    (hvalid : mt.Validate = none) (hw : w.healthy)
    (hint : w.cfg.AlertmanagerConfig.MuteTimeIntervals = some intervals)
    (hex : ∃ existing ∈ intervals, existing.Name = mt.MuteTimeInterval.Name) :
    ∃ saved,
      (UpdateMuteTiming w mt orgID).1 = Result.ok (some mt) ∧
      (UpdateMuteTiming w mt orgID).2.cfg = withIntervals w.cfg (some saved) ∧
      saved.length = intervals.length ∧
      saved[intervals.findIdx (fun e => e.Name == mt.MuteTimeInterval.Name)]?
        = some mt.MuteTimeInterval ∧
      ∀ j, j ≠ intervals.findIdx (fun e => e.Name == mt.MuteTimeInterval.Name) →
        saved[j]? = intervals[j]? := by
  obtain ⟨mt0, hloop, hlt⟩ := getMuteTiming.loop_findIdx mt.MuteTimeInterval.Name intervals 0 hex
  rw [Nat.zero_add] at hloop
  refine ⟨intervals.set (intervals.findIdx (fun e => e.Name == mt.MuteTimeInterval.Name))
    mt.MuteTimeInterval, ?_, ?_, ?_, ?_, ?_⟩
  · rw [UpdateMuteTiming_run w mt orgID intervals mt0 _ hvalid hw hint hloop]
  · rw [UpdateMuteTiming_run w mt orgID intervals mt0 _ hvalid hw hint hloop]
  · exact List.length_set _ _ _
  · rw [List.getElem?_set_self hlt]
  · intro j hj
    exact List.getElem?_set_ne (Ne.symm hj)

theorem UpdateMuteTiming_in_place_witness :
    ∃ saved,
      (UpdateMuteTiming
        (sampleWorld none (some [sampleInterval "lunch", sampleInterval "quiet-nights"]))
        ⟨⟨"quiet-nights", []⟩, "api"⟩ 1).2.cfg = withIntervals
          (sampleWorld none (some [sampleInterval "lunch", sampleInterval "quiet-nights"])).cfg
          (some saved) ∧
      saved[1]? = some ⟨"quiet-nights", []⟩ ∧ saved[0]? = some (sampleInterval "lunch") := by
  obtain ⟨saved, _, h2, _, h4, h5⟩ := UpdateMuteTiming_in_place
    (sampleWorld none (some [sampleInterval "lunch", sampleInterval "quiet-nights"]))
    ⟨⟨"quiet-nights", []⟩, "api"⟩ 1 [sampleInterval "lunch", sampleInterval "quiet-nights"]
    (by decide) ⟨rfl, rfl, rfl⟩ rfl ⟨sampleInterval "quiet-nights", by simp, rfl⟩
  exact ⟨saved, h2, h4, h5 0 (by decide)⟩

/-! ## Listing -/

theorem lookup_getProvenances (ty id : String)
    (l : List ((String × String) × definitions.Provenance)) :
    ((l.filter (fun r => r.1.1 == ty)).map (fun r => (r.1.2, r.2))).lookup id
      = l.lookup (ty, id) := by
  induction l with
  | nil => rfl
  | cons r rest ih =>
    obtain ⟨⟨t, i⟩, v⟩ := r
    by_cases ht : t = ty
    · subst ht
      by_cases hi : id = i
      · subst hi
        simp [List.filter, List.lookup]
      · have h1 : (id == i) = false := by simp only [beq_eq_false_iff_ne, ne_eq]; exact hi
        have h2 : ((t, id) == (t, i)) = false := by
          simp only [beq_eq_false_iff_ne, ne_eq, Prod.mk.injEq, true_and]; exact hi
        simp only [List.filter, beq_self_eq_true, List.map_cons, List.lookup, h1, h2]
        exact ih
    · have h1 : (t == ty) = false := by simp only [beq_eq_false_iff_ne, ne_eq]; exact ht
      have h2 : ((ty, id) == (t, i)) = false := by
        simp only [beq_eq_false_iff_ne, ne_eq, Prod.mk.injEq, not_and]
        intro h3; exact absurd h3.symm ht
      simp only [List.filter, h1, List.lookup, h2]
      exact ih

/-- C10: when `Get` succeeds, `GetMuteTimings` returns the empty list and no
error on a snapshot without an interval collection; on a snapshot with a
collection (and a working provenance store) it returns a list of the same
length whose element at each index wraps the stored interval at that index and
carries the provenance recorded for that interval's resource ID, or the none
provenance when there is no record. -/
theorem GetMuteTimings_lists (w : World) (orgID : Int) (hget : w.getErr = none) :
    (w.cfg.AlertmanagerConfig.MuteTimeIntervals = none →
      (GetMuteTimings w orgID).1 = Result.ok []) ∧
    (∀ intervals, w.cfg.AlertmanagerConfig.MuteTimeIntervals = some intervals →
      w.provErr = none →
      ∃ result : List definitions.MuteTimeInterval,
        (GetMuteTimings w orgID).1 = Result.ok result ∧
        result.length = intervals.length ∧
        ∀ (i : Nat) (interval : config.MuteTimeInterval), intervals[i]? = some interval →
          result[i]? = some (definitions.MuteTimeInterval.mk interval
            ((w.recorded (MuteTimeInterval.ResourceID ⟨interval, ProvenanceNone⟩)).getD
              ProvenanceNone))) := by
  constructor
  · intro hnil
    simp [GetMuteTimings, configGet_ok w orgID hget, World.record, hnil]
  · intro intervals hint hprov
    refine ⟨intervals.map (fun interval => definitions.MuteTimeInterval.mk interval
      ((w.recorded interval.Name).getD ProvenanceNone)), ?_, ?_, ?_⟩
    · simp only [GetMuteTimings, configGet_ok w orgID hget, World.record, hint,
        provGetProvenances, hprov, MuteTimeInterval.ResourceType, MuteTimeInterval.ResourceID,
        lookup_getProvenances, World.recorded]
      congr 1
      apply List.map_congr_left
      intro interval _
      cases h : List.lookup ("muteTimeInterval", interval.Name) w.provenances <;> rfl
    · simp
    · intro i interval hi
      simp [List.getElem?_map, hi, MuteTimeInterval.ResourceID]

theorem GetMuteTimings_lists_witness :
    (GetMuteTimings (sampleWorld none none) 1).1 = Result.ok [] ∧
    ∃ result : List definitions.MuteTimeInterval,
      (GetMuteTimings
        { sampleWorld none (some [sampleInterval "lunch", sampleInterval "quiet-nights"]) with
          provenances := [(("muteTimeInterval", "lunch"), "file")] } 1).1 = Result.ok result ∧
      result[0]? = some ⟨sampleInterval "lunch", "file"⟩ ∧
      result[1]? = some ⟨sampleInterval "quiet-nights", ProvenanceNone⟩ := by
  refine ⟨(GetMuteTimings_lists (sampleWorld none none) 1 rfl).1 rfl, ?_⟩
  obtain ⟨result, h1, _, h3⟩ := (GetMuteTimings_lists
    { sampleWorld none (some [sampleInterval "lunch", sampleInterval "quiet-nights"]) with
      provenances := [(("muteTimeInterval", "lunch"), "file")] } 1 rfl).2
    [sampleInterval "lunch", sampleInterval "quiet-nights"] rfl rfl
  exact ⟨result, h1, h3 0 (sampleInterval "lunch") rfl, h3 1 (sampleInterval "quiet-nights") rfl⟩

/-! ## The neighbouring cases -/

/-- On a snapshot whose collection is present but holds no interval with the
name, `UpdateMuteTiming` of a valid definition fails with
`ErrMuteTimingsNotFound` after the single `Get`. -/
theorem UpdateMuteTiming_not_found (w : World) (mt : definitions.MuteTimeInterval) (orgID : Int)
    (intervals : List config.MuteTimeInterval)
    (hvalid : mt.Validate = none) (hget : w.getErr = none)
    (hint : w.cfg.AlertmanagerConfig.MuteTimeIntervals = some intervals)
    (habsent : ∀ existing ∈ intervals, existing.Name ≠ mt.MuteTimeInterval.Name) :
    UpdateMuteTiming w mt orgID =
      (Result.error Err.ErrMuteTimingsNotFound, w.record (Call.Get orgID)) := by
  have hloop := getMuteTiming.loop_none mt.MuteTimeInterval.Name intervals 0 habsent
  simp [UpdateMuteTiming, hvalid, configGet_ok w orgID hget, hint, getMuteTiming, hloop]

/-- On a snapshot whose collection is nil, `DeleteMuteTiming` returns no error
after the single `Get`, whatever the route tree holds. -/
theorem DeleteMuteTiming_nil_collection (w : World) (name : String) (orgID : Int)
    (hget : w.getErr = none)
    (hint : w.cfg.AlertmanagerConfig.MuteTimeIntervals = none) :
    DeleteMuteTiming w name orgID = (Result.ok (), w.record (Call.Get orgID)) := by
  simp [DeleteMuteTiming, configGet_ok w orgID hget, World.record, hint]

end provisioning

namespace provisioning

open definitions

/-! ## The usage check as a walk -/

mutual
theorem isMuteTimeInUse.visitedRoute_spec (name : String) :
    ∀ r : Route,
      (isMuteTimeInUse.visitedRoute name r).1 = isMuteTimeInUse.route name r ∧
      (isMuteTimeInUse.visitedRoute name r).2 <+: routesOf r ∧
      (isMuteTimeInUse.route name r = false →
        (isMuteTimeInUse.visitedRoute name r).2 = routesOf r)
  | Route.mk a b c d e rs => by
    obtain ⟨h1, h2, h3⟩ := isMuteTimeInUse.visited_spec name rs
    by_cases h : e.any (fun mtName => mtName == name) = true
    · simp only [isMuteTimeInUse.visitedRoute, isMuteTimeInUse.route, routesOf, h, if_true]
      refine ⟨trivial, ?_, ?_⟩
      · exact ⟨routesOfAll rs, rfl⟩
      · intro hf; cases hf
    · simp only [isMuteTimeInUse.visitedRoute, isMuteTimeInUse.route, routesOf, h,
        Bool.false_eq_true, if_false]
      refine ⟨h1, ?_, ?_⟩
      · obtain ⟨t, ht⟩ := h2
        exact ⟨t, by rw [List.cons_append, ht]⟩
      · intro hf; rw [h3 hf]
theorem isMuteTimeInUse.visited_spec (name : String) :
    ∀ rs : List Route,
      (isMuteTimeInUse.visited name rs).1 = isMuteTimeInUse name rs ∧
      (isMuteTimeInUse.visited name rs).2 <+: routesOfAll rs ∧
      (isMuteTimeInUse name rs = false → (isMuteTimeInUse.visited name rs).2 = routesOfAll rs)
  | [] => by
    simp [isMuteTimeInUse.visited, isMuteTimeInUse, routesOfAll]
  | r :: rest => by
    obtain ⟨h1, h2, h3⟩ := isMuteTimeInUse.visitedRoute_spec name r
    obtain ⟨k1, k2, k3⟩ := isMuteTimeInUse.visited_spec name rest
    by_cases h : isMuteTimeInUse.route name r = true
    · simp only [isMuteTimeInUse.visited, isMuteTimeInUse, routesOfAll, h1, h, if_true]
      refine ⟨trivial, ?_, ?_⟩
      · obtain ⟨t, ht⟩ := h2
        exact ⟨t ++ routesOfAll rest, by rw [← List.append_assoc, ht]⟩
      · intro hf; cases hf
    · have hf : isMuteTimeInUse.route name r = false := by
        cases hr : isMuteTimeInUse.route name r with
        | false => rfl
        | true => exact absurd hr h
      simp only [isMuteTimeInUse.visited, isMuteTimeInUse, routesOfAll, h1, hf,
        Bool.false_eq_true, if_false]
      refine ⟨k1, ?_, ?_⟩
      · rw [h3 hf]
        obtain ⟨t, ht⟩ := k2
        exact ⟨t, by rw [List.append_assoc, ht]⟩
      · intro hf2; rw [h3 hf, k3 hf2]
end

/-- C19: `isMuteTimeInUse` is defined by recursion on the forest (each call is
on the child list of the route at hand, so it returns on every finite forest);
it returns false on the empty forest and true exactly when some route of the
forest, at some depth, lists `name`.  The routes it examines are an initial
stretch of the depth-first enumeration of the forest, each route once, and
when there is no hit they are the whole enumeration. -/
theorem isMuteTimeInUse_total_and_exact (name : String) (routes : List Route) :
    isMuteTimeInUse name [] = false ∧
    (isMuteTimeInUse name routes = true ↔ referencedIn name routes) ∧
    (isMuteTimeInUse name routes = false ↔ ¬ referencedIn name routes) ∧
    (isMuteTimeInUse.visited name routes).1 = isMuteTimeInUse name routes ∧
    (isMuteTimeInUse.visited name routes).2 <+: routesOfAll routes ∧
    (isMuteTimeInUse name routes = false →
      (isMuteTimeInUse.visited name routes).2 = routesOfAll routes) := by
  obtain ⟨h1, h2, h3⟩ := isMuteTimeInUse.visited_spec name routes
  refine ⟨rfl, isMuteTimeInUse_iff name routes, ?_, h1, h2, h3⟩
  rw [← isMuteTimeInUse_iff name routes]
  cases isMuteTimeInUse name routes <;> simp

/-- C20: on a stored list in which `name` occurs twice in a row the removal
loop of `DeleteMuteTiming` runs into a slice-bounds panic, and on a list in
which a third entry follows the two it completes but saves a list that still
holds an entry named `name`. -/
theorem DeleteMuteTiming_duplicate_names :
    DeleteMuteTiming.loop "x" 2 0 [sampleInterval "x", sampleInterval "x"] 2 = none ∧
    (DeleteMuteTiming (sampleWorld (some (sampleRoute [] []))
      (some [sampleInterval "x", sampleInterval "x"])) "x" 1).1
      = Result.panic "slice bounds out of range" ∧
    (DeleteMuteTiming (sampleWorld (some (sampleRoute [] []))
      (some [sampleInterval "x", sampleInterval "x", sampleInterval "a"])) "x" 1).1
      = Result.ok () ∧
    (DeleteMuteTiming (sampleWorld (some (sampleRoute [] []))
      (some [sampleInterval "x", sampleInterval "x", sampleInterval "a"])) "x" 1).2.cfg.AlertmanagerConfig.MuteTimeIntervals
      = some [sampleInterval "x", sampleInterval "a"] := by
  refine ⟨by decide, by decide, by decide, by decide⟩

end provisioning

namespace models

open definitions

/-! ## Recognising the legacy subtree -/

theorem firstIndexFrom_none (p : Route → Bool) :
    ∀ (l : List Route) (i : Nat),
      firstIndexFrom p i l = none ↔ ∀ r ∈ l, p r = false := by
  intro l
  induction l with
  | nil => intro i; simp [firstIndexFrom]
  | cons a rest ih =>
    intro i
    by_cases ha : p a = true
    · simp [firstIndexFrom, ha]
    · have hf : p a = false := by simpa using ha
      simp [firstIndexFrom, hf, ih (i + 1)]

theorem firstIndexFrom_some (p : Route → Bool) :
    ∀ (l : List Route) (i k : Nat), firstIndexFrom p i l = some k →
      i ≤ k ∧ (∃ r, l[k - i]? = some r ∧ p r = true) ∧
        ∀ j x, j < k - i → l[j]? = some x → p x = false := by
  intro l
  induction l with
  | nil => intro i k h; simp [firstIndexFrom] at h
  | cons a rest ih =>
    intro i k h
    by_cases ha : p a = true
    · simp only [firstIndexFrom, ha, if_true, Option.some.injEq] at h
      subst h
      refine ⟨Nat.le_refl _, ⟨a, by simp, ha⟩, ?_⟩
      intro j x hj; omega
    · have hf : p a = false := by simpa using ha
      simp only [firstIndexFrom, hf, Bool.false_eq_true, if_false] at h
      obtain ⟨h1, ⟨r, h2, h3⟩, h4⟩ := ih (i + 1) k h
      have e : k - i = (k - (i + 1)) + 1 := by omega
      refine ⟨by omega, ⟨r, by rw [e, List.getElem?_cons_succ]; exact h2, h3⟩, ?_⟩
      intro j x hj hx
      cases j with
      | zero =>
        simp only [List.getElem?_cons_zero, Option.some.injEq] at hx
        rw [← hx]; exact hf
      | succ j =>
        rw [List.getElem?_cons_succ] at hx
        exact h4 j x (by omega) hx

theorem firstIndexFrom_of_first (p : Route → Bool) :
    ∀ (l : List Route) (i idx : Nat) (r : Route), l[idx]? = some r → p r = true →
      (∀ j x, j < idx → l[j]? = some x → p x = false) →
      firstIndexFrom p i l = some (i + idx) := by
  intro l
  induction l with
  | nil => intro i idx r h; simp at h
  | cons a rest ih =>
    intro i idx r h hp hbefore
    cases idx with
    | zero =>
      simp only [List.getElem?_cons_zero, Option.some.injEq] at h
      subst h
      simp [firstIndexFrom, hp]
    | succ idx =>
      have hf : p a = false := hbefore 0 a (by omega) (by simp)
      rw [List.getElem?_cons_succ] at h
      simp only [firstIndexFrom, hf, Bool.false_eq_true, if_false]
      rw [ih (i + 1) idx r h hp (fun j x hj hx =>
        hbefore (j + 1) x (by omega) (by rw [List.getElem?_cons_succ]; exact hx))]
      congr 1
      omega

theorem isNestedLegacyRoute_createNestedLegacyRoute :
    isNestedLegacyRoute createNestedLegacyRoute = true := by
  decide

/-- C16: the test `isNestedLegacyRoute`, which both the lookup of
`getOrCreateNestedLegacyRoute` and the cleanup of `CleanAlertmanager` apply,
holds exactly when the route carries one matcher and no other and that matcher
is on the reserved legacy-channels label key; neither the value nor the kind of
the matcher is looked at.  The route made by `createNestedLegacyRoute`, whose
matcher has the value "true", passes the test. -/
theorem isNestedLegacyRoute_iff (r : Route) :
    (isNestedLegacyRoute r = true ↔
      ∃ m : labels.Matcher, r.ObjectMatchers = [m] ∧
        m.Name = ngmodels.MigratedUseLegacyChannelsLabel) ∧
    isNestedLegacyRoute createNestedLegacyRoute = true ∧
    createNestedLegacyRoute.ObjectMatchers =
      [⟨labels.MatchType.MatchEqual, ngmodels.MigratedUseLegacyChannelsLabel, "true"⟩] := by
  refine ⟨?_, isNestedLegacyRoute_createNestedLegacyRoute, rfl⟩
  unfold isNestedLegacyRoute
  cases h : r.ObjectMatchers with
  | nil => simp
  | cons m rest =>
    cases rest with
    | nil => simp
    | cons m2 rest2 => simp

/-- C16, counterexample: a route whose single matcher is on the reserved key
with the value "false" passes the legacy-subtree test. -/
theorem isNestedLegacyRoute_ignores_value :
    isNestedLegacyRoute (Route.mk "" [⟨labels.MatchType.MatchEqual,
      ngmodels.MigratedUseLegacyChannelsLabel, "false"⟩] false [] [] []) = true := by
  decide

end models

namespace models

open definitions

/-! ## Bootstrap -/

/-- C11: after `NewAlertmanager` exactly one child of the root route passes the
legacy-subtree test (the root has one child and it passes), that child has no
children, and it is the route the model's `legacyRoute` points to. -/
theorem NewAlertmanager_one_legacy_subtree :
    NewAlertmanager.config.rootRoutes = [createNestedLegacyRoute] ∧
    NewAlertmanager.config.rootRoutes.countP isNestedLegacyRoute = 1 ∧
    createNestedLegacyRoute.Routes = [] ∧
    NewAlertmanager.legacy = some createNestedLegacyRoute ∧
    isNestedLegacyRoute createNestedLegacyRoute = true := by
  refine ⟨rfl, by decide, rfl, rfl, by decide⟩

theorem withRoutes_Routes (r : Route) (routes : List Route) :
    (r.withRoutes routes).Routes = routes := by
  cases r; rfl

theorem withRoutes_self (r : Route) : r.withRoutes r.Routes = r := by
  cases r; rfl

theorem withRoutes_fields (r : Route) (routes : List Route) :
    (r.withRoutes routes).Receiver = r.Receiver ∧
    (r.withRoutes routes).ObjectMatchers = r.ObjectMatchers ∧
    (r.withRoutes routes).Continue = r.Continue ∧
    (r.withRoutes routes).GroupByStr = r.GroupByStr ∧
    (r.withRoutes routes).MuteTimeIntervals = r.MuteTimeIntervals := by
  cases r; exact ⟨rfl, rfl, rfl, rfl, rfl⟩

theorem getOrCreateNestedLegacyRoute_absent (root : Route)
    (h : ∀ r ∈ root.Routes, isNestedLegacyRoute r = false) :
    getOrCreateNestedLegacyRoute root =
      (root.withRoutes (createNestedLegacyRoute :: root.Routes), 0) := by
  simp [getOrCreateNestedLegacyRoute, (firstIndexFrom_none isNestedLegacyRoute root.Routes 0).mpr h]

theorem getOrCreateNestedLegacyRoute_spec (root : Route) :
    ∃ legacyRoute,
      (getOrCreateNestedLegacyRoute root).1.Routes[(getOrCreateNestedLegacyRoute root).2]?
        = some legacyRoute ∧
      isNestedLegacyRoute legacyRoute = true ∧
      ∀ j x, j < (getOrCreateNestedLegacyRoute root).2 →
        (getOrCreateNestedLegacyRoute root).1.Routes[j]? = some x →
        isNestedLegacyRoute x = false := by
  unfold getOrCreateNestedLegacyRoute
  cases h : firstIndexFrom isNestedLegacyRoute 0 root.Routes with
  | none =>
    refine ⟨createNestedLegacyRoute, ?_, isNestedLegacyRoute_createNestedLegacyRoute, ?_⟩
    · simp [withRoutes_Routes]
    · intro j x hj; simp at hj
  | some idx =>
    obtain ⟨_, ⟨r, h2, h3⟩, h4⟩ := firstIndexFrom_some isNestedLegacyRoute root.Routes 0 idx h
    exact ⟨r, by simpa using h2, h3, fun j x hj hx => h4 j x (by simpa using hj) hx⟩

theorem getOrCreateNestedLegacyRoute_found (root : Route) (idx : Nat)
    (h : firstIndexFrom isNestedLegacyRoute 0 root.Routes = some idx) :
    getOrCreateNestedLegacyRoute root = (root, idx) := by
  simp [getOrCreateNestedLegacyRoute, h]

theorem getOrCreateNestedLegacyRoute_idem (root : Route) :
    getOrCreateNestedLegacyRoute (getOrCreateNestedLegacyRoute root).1 =
      getOrCreateNestedLegacyRoute root := by
  obtain ⟨legacyRoute, h1, h2, h3⟩ := getOrCreateNestedLegacyRoute_spec root
  have h := firstIndexFrom_of_first isNestedLegacyRoute
    (getOrCreateNestedLegacyRoute root).1.Routes 0 (getOrCreateNestedLegacyRoute root).2
    legacyRoute h1 h2 h3
  rw [Nat.zero_add] at h
  rw [getOrCreateNestedLegacyRoute_found _ _ h]

/-- C13: for a supplied configuration whose root route exists and has no child
passing the legacy-subtree test, `FromPostableUserConfig` makes the children of
the root a new route followed by the previous children in their order.  The
new first child is a legacy subtree: it passes the legacy-subtree test, its
one matcher is the equality matcher of the reserved key with the value "true",
it continues matching and it has no children.  `legacyRoute` points to it, the
root keeps its own fields, and the receivers and the mute time intervals of
the configuration stay. -/
theorem FromPostableUserConfig_inserts_first (config : PostableUserConfig) (root : Route)
    (hroot : config.AlertmanagerConfig.Route = some root)
    (habsent : ∀ r ∈ root.Routes, isNestedLegacyRoute r = false) :
    (FromPostableUserConfig (some config)).config.rootRoutes =
      createNestedLegacyRoute :: root.Routes ∧
    createNestedLegacyRoute.Routes = [] ∧
    (FromPostableUserConfig (some config)).config =
      config.withRoute (root.withRoutes (createNestedLegacyRoute :: root.Routes)) ∧
    (FromPostableUserConfig (some config)).legacyRoute = RouteRef.child 0 ∧
    (FromPostableUserConfig (some config)).legacy = some createNestedLegacyRoute ∧
    (∃ legacyRoute root2,
      (FromPostableUserConfig (some config)).config.AlertmanagerConfig.Route = some root2 ∧
      root2.Routes = legacyRoute :: root.Routes ∧
      (FromPostableUserConfig (some config)).legacy = some legacyRoute ∧
      isNestedLegacyRoute legacyRoute = true ∧
      legacyRoute.ObjectMatchers =
        [⟨labels.MatchType.MatchEqual, ngmodels.MigratedUseLegacyChannelsLabel, "true"⟩] ∧
      legacyRoute.Continue = true ∧
      legacyRoute.Routes = [] ∧
      legacyRoute.Receiver = "" ∧
      legacyRoute.MuteTimeIntervals = [] ∧
      root2.Receiver = root.Receiver ∧
      root2.ObjectMatchers = root.ObjectMatchers ∧
      root2.Continue = root.Continue ∧
      root2.GroupByStr = root.GroupByStr ∧
      root2.MuteTimeIntervals = root.MuteTimeIntervals) ∧
    (FromPostableUserConfig (some config)).config.AlertmanagerConfig.Receivers =
      config.AlertmanagerConfig.Receivers ∧
    (FromPostableUserConfig (some config)).config.AlertmanagerConfig.MuteTimeIntervals =
      config.AlertmanagerConfig.MuteTimeIntervals := by
  have h := getOrCreateNestedLegacyRoute_absent root habsent
  have hcfg : (FromPostableUserConfig (some config)).config =
      config.withRoute (root.withRoutes (createNestedLegacyRoute :: root.Routes)) := by
    simp [FromPostableUserConfig, hroot, h]
  have hlegacy : (FromPostableUserConfig (some config)).legacy = some createNestedLegacyRoute := by
    simp [FromPostableUserConfig, hroot, h, PostableUserConfig.rootRoutes,
      PostableUserConfig.withRoute, withRoutes_Routes, Alertmanager.legacy]
  have hfields := withRoutes_fields root (createNestedLegacyRoute :: root.Routes)
  refine ⟨?_, rfl, hcfg, ?_, hlegacy, ?_, ?_, ?_⟩
  · rw [hcfg]
    simp [PostableUserConfig.rootRoutes, PostableUserConfig.withRoute, withRoutes_Routes]
  · simp [FromPostableUserConfig, hroot, h]
  · refine ⟨createNestedLegacyRoute, root.withRoutes (createNestedLegacyRoute :: root.Routes),
      ?_, withRoutes_Routes _ _, hlegacy, isNestedLegacyRoute_createNestedLegacyRoute,
      rfl, rfl, rfl, rfl, rfl, hfields.1, hfields.2.1, hfields.2.2.1, hfields.2.2.2.1,
      hfields.2.2.2.2⟩
    rw [hcfg]; rfl
  · rw [hcfg]; rfl
  · rw [hcfg]; rfl

theorem FromPostableUserConfig_inserts_first_witness :
    ∃ legacyRoute root2,
      (FromPostableUserConfig (some ⟨⟨some (Route.mk "default" [] false [] []
        [Route.mk "ops" [⟨labels.MatchType.MatchEqual, "team", "ops"⟩] false [] [] []]),
        none, []⟩⟩)).config.AlertmanagerConfig.Route = some root2 ∧
      root2.Routes = [legacyRoute,
        Route.mk "ops" [⟨labels.MatchType.MatchEqual, "team", "ops"⟩] false [] [] []] ∧
      isNestedLegacyRoute legacyRoute = true ∧
      legacyRoute.Routes = [] := by
  obtain ⟨legacyRoute, root2, h1, h2, _, h4, _, _, h7, _⟩ :=
    (FromPostableUserConfig_inserts_first
      ⟨⟨some (Route.mk "default" [] false [] []
          [Route.mk "ops" [⟨labels.MatchType.MatchEqual, "team", "ops"⟩] false [] [] []]),
        none, []⟩⟩
      (Route.mk "default" [] false [] []
          [Route.mk "ops" [⟨labels.MatchType.MatchEqual, "team", "ops"⟩] false [] [] []])
      rfl (by decide)).2.2.2.2.2.1
  exact ⟨legacyRoute, root2, h1, h2, h4, h7⟩

end models

namespace models

open definitions

theorem countP_getOrCreateNestedLegacyRoute (root : Route) :
    (getOrCreateNestedLegacyRoute root).1.Routes.countP isNestedLegacyRoute =
      max 1 (root.Routes.countP isNestedLegacyRoute) := by
  cases h : firstIndexFrom isNestedLegacyRoute 0 root.Routes with
  | none =>
    have hall := (firstIndexFrom_none isNestedLegacyRoute root.Routes 0).mp h
    have hz : root.Routes.countP isNestedLegacyRoute = 0 := by
      rw [List.countP_eq_zero]
      intro r hr; simp [hall r hr]
    rw [getOrCreateNestedLegacyRoute_absent root hall, hz]
    simp [withRoutes_Routes, List.countP_cons, hz, isNestedLegacyRoute_createNestedLegacyRoute]
  | some idx =>
    obtain ⟨_, ⟨r, h2, h3⟩, _⟩ := firstIndexFrom_some isNestedLegacyRoute root.Routes 0 idx h
    have hpos : 0 < root.Routes.countP isNestedLegacyRoute := by
      rw [List.countP_pos_iff]
      exact ⟨r, List.getElem?_mem h2, h3⟩
    rw [getOrCreateNestedLegacyRoute_found root idx h]
    simp only
    omega

theorem FromPostableUserConfig_bootstrap (c : Option PostableUserConfig) :
    FromPostableUserConfig (bootstrap c) = FromPostableUserConfig c := by
  simp only [bootstrap, FromPostableUserConfig, PostableUserConfig.withRoute,
    getOrCreateNestedLegacyRoute_idem, PostableUserConfig.GetGrafanaReceiverMap]

theorem legacyCount_bootstrap (c : Option PostableUserConfig) :
    legacyCount (bootstrap c) = max 1 (legacyCount c) := by
  have hd : createDefaultRoute.Routes.countP isNestedLegacyRoute = 1 := by decide
  cases c with
  | none =>
    simp only [bootstrap, legacyCount, FromPostableUserConfig, PostableUserConfig.rootRoutes,
      PostableUserConfig.withRoute, createBaseConfig, countP_getOrCreateNestedLegacyRoute, hd]
    rfl
  | some config =>
    cases hroot : config.AlertmanagerConfig.Route with
    | none =>
      simp only [bootstrap, legacyCount, FromPostableUserConfig, PostableUserConfig.rootRoutes,
        PostableUserConfig.withRoute, hroot, countP_getOrCreateNestedLegacyRoute, hd]
      rfl
    | some root =>
      simp only [bootstrap, legacyCount, FromPostableUserConfig, PostableUserConfig.rootRoutes,
        PostableUserConfig.withRoute, hroot, countP_getOrCreateNestedLegacyRoute]

theorem bootstrap_iterate (c : Option PostableUserConfig) :
    ∀ n, 1 ≤ n → bootstrap^[n] c = bootstrap c := by
  intro n
  induction n with
  | zero => intro h; omega
  | succ n ih =>
    intro _
    rw [Function.iterate_succ_apply']
    cases n with
    | zero => rfl
    | succ m =>
      rw [ih (by omega)]
      show some (FromPostableUserConfig (bootstrap c)).config = some (FromPostableUserConfig c).config
      rw [FromPostableUserConfig_bootstrap]

/-- C12: bootstrap is idempotent.  `FromPostableUserConfig` applied to the
configuration that `FromPostableUserConfig` produced from any `c` (nil
included) yields the same model, so that configuration is left as it is; after
any number of bootstraps, one at least, the number of children of the root that
pass the legacy-subtree test is the larger of 1 and the number in `c`, so a
configuration with at most one such child never has more than one. -/
theorem FromPostableUserConfig_idempotent (c : Option PostableUserConfig) :
    (FromPostableUserConfig (some (FromPostableUserConfig c).config)).config =
      (FromPostableUserConfig c).config ∧
    FromPostableUserConfig (some (FromPostableUserConfig c).config) = FromPostableUserConfig c ∧
    (∀ n, 1 ≤ n → legacyCount (bootstrap^[n] c) = max 1 (legacyCount c)) ∧
    (∀ n, legacyCount c ≤ 1 → legacyCount (bootstrap^[n] c) ≤ 1) := by
  have hidem := FromPostableUserConfig_bootstrap c
  simp only [bootstrap] at hidem
  refine ⟨by rw [hidem], hidem, ?_, ?_⟩
  · intro n hn
    rw [bootstrap_iterate c n hn, legacyCount_bootstrap]
  · intro n hle
    cases n with
    | zero => simpa using hle
    | succ m =>
      rw [bootstrap_iterate c (m + 1) (by omega), legacyCount_bootstrap]
      omega

end models

namespace models

open definitions

/-! ## Adding routes -/

/-- C14: for a model whose `legacyRoute` points to a route, `AddRoute` of a
route `r` appends `r` as the last child of that route: afterwards the pointer
points to a route whose children are the old children followed by `r` and
whose other fields are those of the old one, and `r.Receiver` is bound to `r`
in the index.  Nothing else changes: the root keeps its own fields and the
number of its children, every child other than the legacy subtree is the
route it was, at the place it was, and the receivers, the mute time intervals
and the receiver index are the same.  `AddRoute` of the nil route changes
nothing. -/
theorem AddRoute_appends_under_legacy (am : Alertmanager) (r legacyRoute : Route)
    (hlegacy : am.legacy = some legacyRoute) :
    (am.AddRoute (some r)).legacy =
      some (legacyRoute.withRoutes (legacyRoute.Routes ++ [r])) ∧
    (∀ idx, am.legacyRoute = RouteRef.child idx →
      (am.AddRoute (some r)).legacyRoute = RouteRef.child idx) ∧
    (am.AddRoute (some r)).config.rootRoutes.length = am.config.rootRoutes.length ∧
    (∀ j, am.legacyRoute ≠ RouteRef.child j →
      (am.AddRoute (some r)).config.rootRoutes[j]? = am.config.rootRoutes[j]?) ∧
    (am.AddRoute (some r)).config.AlertmanagerConfig.Route.map (fun root => root.withRoutes [])
      = am.config.AlertmanagerConfig.Route.map (fun root => root.withRoutes []) ∧
    (am.AddRoute (some r)).config.AlertmanagerConfig.Receivers
      = am.config.AlertmanagerConfig.Receivers ∧
    (am.AddRoute (some r)).config.AlertmanagerConfig.MuteTimeIntervals
      = am.config.AlertmanagerConfig.MuteTimeIntervals ∧
    (am.AddRoute (some r)).legacyUIDToReceiver = am.legacyUIDToReceiver ∧
    (am.AddRoute (some r)).GetLegacyRoute r.Receiver = some r ∧
    am.AddRoute none = am ∧
    (∃ legacyRoute2, (am.AddRoute (some r)).legacy = some legacyRoute2 ∧
      legacyRoute2.Routes = legacyRoute.Routes ++ [r] ∧
      legacyRoute2.Receiver = legacyRoute.Receiver ∧
      legacyRoute2.ObjectMatchers = legacyRoute.ObjectMatchers ∧
      legacyRoute2.Continue = legacyRoute.Continue ∧
      legacyRoute2.GroupByStr = legacyRoute.GroupByStr ∧
      legacyRoute2.MuteTimeIntervals = legacyRoute.MuteTimeIntervals) ∧
    (∀ idx, am.legacyRoute = RouteRef.child idx →
      ∃ legacyRoute2, (am.AddRoute (some r)).config.rootRoutes[idx]? = some legacyRoute2 ∧
        legacyRoute2.Routes = legacyRoute.Routes ++ [r]) ∧
    (∀ route, am.legacyRoute = RouteRef.detached route →
      (am.AddRoute (some r)).config = am.config) ∧
    (am.AddRoute (some r)).config.AlertmanagerConfig.Route.map
        (fun root => (root.Receiver, root.ObjectMatchers, root.Continue, root.GroupByStr,
          root.MuteTimeIntervals))
      = am.config.AlertmanagerConfig.Route.map
        (fun root => (root.Receiver, root.ObjectMatchers, root.Continue, root.GroupByStr,
          root.MuteTimeIntervals)) := by
  have hfields := withRoutes_fields legacyRoute (legacyRoute.Routes ++ [r])
  have hnew : ∀ l2, l2 = legacyRoute.withRoutes (legacyRoute.Routes ++ [r]) →
      l2.Routes = legacyRoute.Routes ++ [r] ∧
      l2.Receiver = legacyRoute.Receiver ∧
      l2.ObjectMatchers = legacyRoute.ObjectMatchers ∧
      l2.Continue = legacyRoute.Continue ∧
      l2.GroupByStr = legacyRoute.GroupByStr ∧
      l2.MuteTimeIntervals = legacyRoute.MuteTimeIntervals := by
    intro l2 h2
    subst h2
    exact ⟨withRoutes_Routes _ _, hfields⟩
  cases href : am.legacyRoute with
  | detached route =>
    have hroute : route = legacyRoute := by
      simpa [Alertmanager.legacy, href] using hlegacy
    subst hroute
    have hl : (am.AddRoute (some r)).legacy = some (route.withRoutes (route.Routes ++ [r])) := by
      simp [Alertmanager.AddRoute, href, Alertmanager.legacy]
    have hc : (am.AddRoute (some r)).config = am.config := by
      simp [Alertmanager.AddRoute, href]
    refine ⟨hl, ?_, ?_, ?_, ?_, ?_, ?_, ?_, ?_, rfl, ⟨_, hl, hnew _ rfl⟩, ?_, ?_, ?_⟩
    · intro idx h; cases h
    · rw [hc]
    · intro j _; rw [hc]
    · rw [hc]
    · rw [hc]
    · rw [hc]
    · simp [Alertmanager.AddRoute, href]
    · simp [Alertmanager.AddRoute, href, Alertmanager.GetLegacyRoute, List.lookup]
    · intro idx h; cases h
    · intro _ _; exact hc
    · rw [hc]
  | child idx =>
    have hat : am.config.rootRoutes[idx]? = some legacyRoute := by
      simpa [Alertmanager.legacy, href] using hlegacy
    cases hroot : am.config.AlertmanagerConfig.Route with
    | none => simp [PostableUserConfig.rootRoutes, hroot] at hat
    | some root =>
      have hat2 : root.Routes[idx]? = some legacyRoute := by
        simpa [PostableUserConfig.rootRoutes, hroot] using hat
      have hat3 : (am.AddRoute (some r)).config.rootRoutes[idx]? =
          some (legacyRoute.withRoutes (legacyRoute.Routes ++ [r])) := by
        simp [Alertmanager.AddRoute, href, hroot, PostableUserConfig.rootRoutes,
          PostableUserConfig.withRoute, withRoutes_Routes, hat2]
      have hl : (am.AddRoute (some r)).legacy =
          some (legacyRoute.withRoutes (legacyRoute.Routes ++ [r])) := by
        simp [Alertmanager.AddRoute, href, hroot, Alertmanager.legacy,
          PostableUserConfig.rootRoutes, PostableUserConfig.withRoute, withRoutes_Routes, hat2]
      refine ⟨hl, ?_, ?_, ?_, ?_, ?_, ?_, ?_, ?_, rfl, ⟨_, hl, hnew _ rfl⟩, ?_, ?_, ?_⟩
      · intro idx2 h2
        simp [Alertmanager.AddRoute, href, hroot, h2]
      · simp [Alertmanager.AddRoute, href, hroot, PostableUserConfig.rootRoutes,
          PostableUserConfig.withRoute, withRoutes_Routes]
      · intro j hj
        have hne : idx ≠ j := fun h => hj (by rw [h])
        simp [Alertmanager.AddRoute, href, hroot, PostableUserConfig.rootRoutes,
          PostableUserConfig.withRoute, withRoutes_Routes, List.getElem?_modify_ne _ _ hne]
      · cases root
        simp [Alertmanager.AddRoute, href, hroot, PostableUserConfig.withRoute,
          Route.withRoutes]
      · simp [Alertmanager.AddRoute, href, hroot, PostableUserConfig.withRoute]
      · simp [Alertmanager.AddRoute, href, hroot, PostableUserConfig.withRoute]
      · simp [Alertmanager.AddRoute, href, hroot]
      · simp [Alertmanager.AddRoute, href, hroot, Alertmanager.GetLegacyRoute, List.lookup]
      · intro idx2 h2
        have hi : idx2 = idx := by cases h2; rfl
        subst hi
        exact ⟨_, hat3, (hnew _ rfl).1⟩
      · intro route h; cases h
      · cases root
        simp [Alertmanager.AddRoute, href, hroot, PostableUserConfig.withRoute,
          Route.withRoutes, Route.Receiver, Route.ObjectMatchers, Route.Continue,
          Route.GroupByStr, Route.MuteTimeIntervals]

theorem AddRoute_appends_under_legacy_witness :
    ∃ legacyRoute2,
      (NewAlertmanager.AddRoute (some (Route.mk "slack" [] false [] [] []))).config.rootRoutes[0]?
        = some legacyRoute2 ∧
      legacyRoute2.Routes = [Route.mk "slack" [] false [] [] []] :=
  (AddRoute_appends_under_legacy NewAlertmanager (Route.mk "slack" [] false [] [] [])
    createNestedLegacyRoute rfl).2.2.2.2.2.2.2.2.2.2.2.1 0 rfl

end models

namespace models

open definitions

/-! ## Cleaning up -/

theorem isNestedLegacyRoute_withRoutes (r : Route) (routes : List Route) :
    isNestedLegacyRoute (r.withRoutes routes) = isNestedLegacyRoute r := by
  cases r; rfl

theorem anchored_FromPostableUserConfig (c : Option PostableUserConfig) :
    (FromPostableUserConfig c).anchored := by
  unfold Alertmanager.anchored FromPostableUserConfig
  simp only [PostableUserConfig.withRoute]
  obtain ⟨legacyRoute, h1, h2, h3⟩ := getOrCreateNestedLegacyRoute_spec
    (match (match c with
        | none => createBaseConfig
        | some config => config).AlertmanagerConfig.Route with
      | none => createDefaultRoute
      | some route => route)
  exact ⟨_, _, legacyRoute, rfl, rfl, h1, h2, h3⟩

theorem anchored_step (am : Alertmanager) (s : Step) (h : am.anchored) :
    (am.step s).anchored := by
  obtain ⟨root, idx, legacyRoute, hroot, href, hat, hlegacy, hbefore⟩ := h
  cases s with
  | AddReceiver recv =>
    cases recv with
    | none => exact ⟨root, idx, legacyRoute, hroot, href, hat, hlegacy, hbefore⟩
    | some recv =>
      exact ⟨root, idx, legacyRoute, by simp [Alertmanager.step, Alertmanager.AddReceiver, hroot],
        by simp [Alertmanager.step, Alertmanager.AddReceiver, href], hat, hlegacy, hbefore⟩
  | AddRoute route =>
    cases route with
    | none => exact ⟨root, idx, legacyRoute, hroot, href, hat, hlegacy, hbefore⟩
    | some route =>
      refine ⟨root.withRoutes (root.Routes.modify (fun legacyRoute =>
          legacyRoute.withRoutes (legacyRoute.Routes ++ [route])) idx), idx,
        legacyRoute.withRoutes (legacyRoute.Routes ++ [route]), ?_, ?_, ?_, ?_, ?_⟩
      · simp [Alertmanager.step, Alertmanager.AddRoute, href, hroot,
          PostableUserConfig.withRoute]
      · simp [Alertmanager.step, Alertmanager.AddRoute, href, hroot]
      · simp [withRoutes_Routes, hat]
      · rw [isNestedLegacyRoute_withRoutes]; exact hlegacy
      · intro j x hj hx
        rw [withRoutes_Routes, List.getElem?_modify_ne _ _ (by omega)] at hx
        exact hbefore j x hj hx

theorem anchored_foldl (steps : List Step) :
    ∀ am : Alertmanager, am.anchored → (steps.foldl Alertmanager.step am).anchored := by
  induction steps with
  | nil => intro am h; exact h
  | cons s rest ih => intro am h; exact ih _ (anchored_step am s h)

theorem anchored_built (c : Option PostableUserConfig) (steps : List Step) :
    (built c steps).anchored :=
  anchored_foldl steps _ (anchored_FromPostableUserConfig c)

/-- C15: in a model obtained by `FromPostableUserConfig` followed by any
`AddRoute` and `AddReceiver` calls, `legacyRoute` points to a child of the
root.  When that legacy subtree has no children, `CleanAlertmanager` returns
the configuration with exactly that child removed from the root's children,
the others in their order, the root's own fields, the receivers and the mute
time intervals as they were.  When it has children it stays where it is in the
returned configuration, and if moreover no other child of the root passes the
legacy-subtree test with no children of its own, the returned configuration is
the model's configuration as it was. -/
theorem CleanAlertmanager_legacy_subtree (c : Option PostableUserConfig) (steps : List Step) :
    ∃ root idx legacyRoute,
      (built c steps).config.AlertmanagerConfig.Route = some root ∧
      (built c steps).legacyRoute = RouteRef.child idx ∧
      root.Routes[idx]? = some legacyRoute ∧
      isNestedLegacyRoute legacyRoute = true ∧
      (legacyRoute.Routes = [] →
        (CleanAlertmanager (built c steps)).map Prod.fst =
          some ((built c steps).config.withRoute
            (root.withRoutes (root.Routes.eraseIdx idx)))) ∧
      (legacyRoute.Routes ≠ [] →
        ∃ config, (CleanAlertmanager (built c steps)).map Prod.fst = some config ∧
          config.rootRoutes[idx]? = some legacyRoute) ∧
      (legacyRoute.Routes ≠ [] →
        (∀ j x, j ≠ idx → root.Routes[j]? = some x → isNestedLegacyRoute x = true →
          x.Routes ≠ []) →
        (CleanAlertmanager (built c steps)).map Prod.fst = some (built c steps).config) ∧
      (legacyRoute.Routes = [] →
        ∃ config root2, (CleanAlertmanager (built c steps)).map Prod.fst = some config ∧
          config.AlertmanagerConfig.Route = some root2 ∧
          root2.Routes = root.Routes.eraseIdx idx ∧
          root2.Receiver = root.Receiver ∧
          root2.ObjectMatchers = root.ObjectMatchers ∧
          root2.Continue = root.Continue ∧
          root2.GroupByStr = root.GroupByStr ∧
          root2.MuteTimeIntervals = root.MuteTimeIntervals ∧
          config.AlertmanagerConfig.Receivers =
            (built c steps).config.AlertmanagerConfig.Receivers ∧
          config.AlertmanagerConfig.MuteTimeIntervals =
            (built c steps).config.AlertmanagerConfig.MuteTimeIntervals) := by
  obtain ⟨root, idx, legacyRoute, hroot, href, hat, hlegacy, hbefore⟩ := anchored_built c steps
  refine ⟨root, idx, legacyRoute, hroot, href, hat, hlegacy, ?_, ?_, ?_, ?_⟩
  · intro hempty
    have hfirst := firstIndexFrom_of_first
      (fun r => isNestedLegacyRoute r && r.Routes.length == 0) root.Routes 0 idx legacyRoute hat
      (by simp [hlegacy, hempty])
      (fun j x hj hx => by simp [hbefore j x hj hx])
    rw [Nat.zero_add] at hfirst
    simp [CleanAlertmanager, hroot, hfirst]
  · intro hfull
    cases hfi : firstIndexFrom (fun r => isNestedLegacyRoute r && r.Routes.length == 0) 0
        root.Routes with
    | none =>
      exact ⟨(built c steps).config, by simp [CleanAlertmanager, hroot, hfi],
        by simp [PostableUserConfig.rootRoutes, hroot, hat]⟩
    | some i =>
      obtain ⟨_, ⟨r, h2, h3⟩, _⟩ := firstIndexFrom_some _ root.Routes 0 i hfi
      simp only [Nat.sub_zero, Bool.and_eq_true, beq_iff_eq, List.length_eq_zero] at h2 h3
      have hlt : idx < i := by
        rcases Nat.lt_trichotomy i idx with h | h | h
        · have hf := hbefore i r h h2
          rw [hf] at h3
          exact absurd h3.1 (by simp)
        · subst h
          rw [hat] at h2
          simp only [Option.some.injEq] at h2
          subst h2
          exact absurd h3.2 hfull
        · exact h
      refine ⟨(built c steps).config.withRoute (root.withRoutes (root.Routes.eraseIdx i)),
        by simp [CleanAlertmanager, hroot, hfi], ?_⟩
      simp [PostableUserConfig.rootRoutes, PostableUserConfig.withRoute, withRoutes_Routes,
        List.getElem?_eraseIdx_of_lt _ _ _ hlt, hat]
  · intro hfull hothers
    have hnone : firstIndexFrom (fun r => isNestedLegacyRoute r && r.Routes.length == 0) 0
        root.Routes = none := by
      rw [firstIndexFrom_none]
      intro x hx
      obtain ⟨j, hj⟩ := List.mem_iff_getElem?.mp hx
      by_cases hji : j = idx
      · subst hji
        have hx2 : x = legacyRoute := by rw [hat] at hj; exact (Option.some.inj hj).symm
        subst hx2
        simp [hfull]
      · cases hn : isNestedLegacyRoute x with
        | false => simp
        | true => simp [hothers j x hji hj hn]
    simp [CleanAlertmanager, hroot, hnone]
  · intro hempty
    have hfirst := firstIndexFrom_of_first
      (fun r => isNestedLegacyRoute r && r.Routes.length == 0) root.Routes 0 idx legacyRoute hat
      (by simp [hlegacy, hempty])
      (fun j x hj hx => by simp [hbefore j x hj hx])
    rw [Nat.zero_add] at hfirst
    have hfields := withRoutes_fields root (root.Routes.eraseIdx idx)
    exact ⟨(built c steps).config.withRoute (root.withRoutes (root.Routes.eraseIdx idx)),
      root.withRoutes (root.Routes.eraseIdx idx),
      by simp [CleanAlertmanager, hroot, hfirst], rfl, withRoutes_Routes _ _,
      hfields.1, hfields.2.1, hfields.2.2.1, hfields.2.2.2.1, hfields.2.2.2.2, rfl, rfl⟩

/-- C15, counterexample: bootstrap from a configuration whose root has two
children passing the legacy-subtree test, the first with a child and the second
without.  The model's legacy subtree is the first and has a child, yet
`CleanAlertmanager` returns a configuration with one root child instead of the
two the model had. -/
theorem CleanAlertmanager_removes_other_subtree :
    (FromPostableUserConfig (some ⟨⟨some (Route.mk "default" [] false [] []
        [createNestedLegacyRoute.withRoutes [Route.mk "slack" [] false [] [] []],
          createNestedLegacyRoute]), none, []⟩⟩)).legacy.map (fun r => r.Routes.length)
      = some 1 ∧
    (FromPostableUserConfig (some ⟨⟨some (Route.mk "default" [] false [] []
        [createNestedLegacyRoute.withRoutes [Route.mk "slack" [] false [] [] []],
          createNestedLegacyRoute]), none, []⟩⟩)).config.rootRoutes.length = 2 ∧
    (CleanAlertmanager (FromPostableUserConfig (some ⟨⟨some (Route.mk "default" [] false [] []
        [createNestedLegacyRoute.withRoutes [Route.mk "slack" [] false [] [] []],
          createNestedLegacyRoute]), none, []⟩⟩))).map (fun out => out.1.rootRoutes.length)
      = some 1 := by
  refine ⟨by decide, by decide, by decide⟩

end models

namespace models

open definitions

/-! ## The contact label -/

theorem HasPrefix_ne_empty (s pre : String) (h : strings.HasPrefix s pre = true)
    (hpre : pre ≠ "") : s ≠ "" := by
  intro hs
  subst hs
  apply hpre
  have hd : pre.data = [] := by
    cases hdata : pre.data with
    | nil => rfl
    | cons c cs => simp [strings.HasPrefix, hdata, List.isPrefixOf] at h
  exact String.ext hd

theorem MigratedContactLabelPrefix_ne_empty : ngmodels.MigratedContactLabelPrefix ≠ "" := by
  decide

/-- C17: `GetContactLabel` returns the empty string exactly when the uid has no
receiver, or the receiver's name has no route in the index of the legacy
subtree, or that route has no matcher of kind `MatchEqual` whose name starts
with the reserved migrated-contact beginning; otherwise it returns the name of
the first such matcher of that route, so a non-empty result starts with the
reserved beginning. -/
theorem GetContactLabel_spec (am : Alertmanager) (uid : String) :
    (am.GetContactLabel uid = "" ↔
      am.GetReceiver uid = none ∨
      (∃ recv, am.GetReceiver uid = some recv ∧ am.GetLegacyRoute recv.Name = none) ∨
      (∃ recv route, am.GetReceiver uid = some recv ∧
        am.GetLegacyRoute recv.Name = some route ∧
        ∀ m ∈ route.ObjectMatchers, ¬ (m.Typ = labels.MatchType.MatchEqual ∧
          strings.HasPrefix m.Name ngmodels.MigratedContactLabelPrefix = true))) ∧
    (∀ recv route m, am.GetReceiver uid = some recv →
      am.GetLegacyRoute recv.Name = some route →
      route.ObjectMatchers.find? (fun m => m.Typ == labels.MatchType.MatchEqual &&
        strings.HasPrefix m.Name ngmodels.MigratedContactLabelPrefix) = some m →
      am.GetContactLabel uid = m.Name) ∧
    (am.GetContactLabel uid ≠ "" →
      strings.HasPrefix (am.GetContactLabel uid) ngmodels.MigratedContactLabelPrefix = true) := by
  cases hrecv : am.GetReceiver uid with
  | none =>
    have hval : am.GetContactLabel uid = "" := by simp [Alertmanager.GetContactLabel, hrecv]
    rw [hval]
    simp
  | some recv =>
    cases hroute : am.GetLegacyRoute recv.Name with
    | none =>
      have hval : am.GetContactLabel uid = "" := by
        simp [Alertmanager.GetContactLabel, hrecv, hroute]
      rw [hval]
      refine ⟨?_, ?_, ?_⟩
      · simp [hroute]
      · intro recv2 route2 m h1 h2 h3
        simp only [Option.some.injEq] at h1
        subst h1
        rw [hroute] at h2
        cases h2
      · intro h; exact absurd rfl h
    | some route =>
      cases hfind : route.ObjectMatchers.find? (fun m => m.Typ == labels.MatchType.MatchEqual &&
          strings.HasPrefix m.Name ngmodels.MigratedContactLabelPrefix) with
      | none =>
        have hval : am.GetContactLabel uid = "" := by
          simp only [Alertmanager.GetContactLabel, hrecv, hroute, hfind]
        have hall := List.find?_eq_none.mp hfind
        rw [hval]
        refine ⟨?_, ?_, ?_⟩
        · simp only [true_iff]
          right; right
          refine ⟨recv, route, rfl, hroute, ?_⟩
          intro m hm hboth
          exact hall m hm (by simp [hboth.1, hboth.2])
        · intro recv2 route2 m h1 h2 h3
          simp only [Option.some.injEq] at h1
          subst h1
          rw [hroute] at h2
          simp only [Option.some.injEq] at h2
          subst h2
          rw [hfind] at h3
          cases h3
        · intro h; exact absurd rfl h
      | some m =>
        have hval : am.GetContactLabel uid = m.Name := by
          simp only [Alertmanager.GetContactLabel, hrecv, hroute, hfind]
        have hp := List.find?_some hfind
        have hmem := List.mem_of_find?_eq_some hfind
        simp only [Bool.and_eq_true, beq_iff_eq] at hp
        have hne : m.Name ≠ "" :=
          HasPrefix_ne_empty m.Name _ hp.2 MigratedContactLabelPrefix_ne_empty
        rw [hval]
        refine ⟨?_, ?_, ?_⟩
        · constructor
          · intro h; exact absurd h hne
          · rintro (h | ⟨recv2, h1, h⟩ | ⟨recv2, route2, h1, h2, h3⟩)
            · cases h
            · simp only [Option.some.injEq] at h1
              subst h1
              rw [hroute] at h
              cases h
            · simp only [Option.some.injEq] at h1
              subst h1
              rw [hroute] at h2
              simp only [Option.some.injEq] at h2
              subst h2
              exact absurd hp (h3 m hmem)
        · intro recv2 route2 m2 h1 h2 h3
          simp only [Option.some.injEq] at h1
          subst h1
          rw [hroute] at h2
          simp only [Option.some.injEq] at h2
          subst h2
          rw [hfind] at h3
          simp only [Option.some.injEq] at h3
          rw [h3]
        · intro _; exact hp.2

/-- C17, counterexample: the receiver `u1` resolves, its name has a route in
the index of the legacy subtree and that route has a matcher whose name starts
with the reserved beginning, but the matcher is a regular-expression matcher
and `GetContactLabel` returns the empty string. -/
theorem GetContactLabel_skips_other_kinds :
    ((NewAlertmanager.AddReceiver (some ⟨"u1", "slack"⟩)).AddRoute
      (some (Route.mk "slack" [⟨labels.MatchType.MatchRegexp, "__legacy_c_slack__", ".*"⟩]
        false [] [] []))).GetContactLabel "u1" = "" ∧
    (((NewAlertmanager.AddReceiver (some ⟨"u1", "slack"⟩)).AddRoute
      (some (Route.mk "slack" [⟨labels.MatchType.MatchRegexp, "__legacy_c_slack__", ".*"⟩]
        false [] [] []))).GetReceiver "u1").map (fun recv => recv.Name) = some "slack" ∧
    (((NewAlertmanager.AddReceiver (some ⟨"u1", "slack"⟩)).AddRoute
      (some (Route.mk "slack" [⟨labels.MatchType.MatchRegexp, "__legacy_c_slack__", ".*"⟩]
        false [] [] []))).GetLegacyRoute "slack").map (fun route => route.ObjectMatchers.any
          (fun m => strings.HasPrefix m.Name ngmodels.MigratedContactLabelPrefix)) = some true := by
  refine ⟨by decide, by decide, by decide⟩

end models

namespace models

open definitions

/-! ## The index of the legacy subtree -/

theorem foldl_bindings (l : List Route) :
    ∀ acc : List (String × Route),
      l.foldl (fun m r => (r.Receiver, r) :: m) acc =
        (l.map (fun r => (r.Receiver, r))).reverse ++ acc := by
  induction l with
  | nil => intro acc; rfl
  | cons a rest ih => intro acc; simp [List.foldl, ih]

theorem indexed_FromPostableUserConfig (c : Option PostableUserConfig) :
    (FromPostableUserConfig c).indexed := by
  obtain ⟨legacyRoute, h1, _, _⟩ := getOrCreateNestedLegacyRoute_spec
    (match (match c with
        | none => createBaseConfig
        | some config => config).AlertmanagerConfig.Route with
      | none => createDefaultRoute
      | some route => route)
  refine ⟨legacyRoute, ?_, ?_⟩
  · simp only [Alertmanager.legacy, FromPostableUserConfig, PostableUserConfig.rootRoutes,
      PostableUserConfig.withRoute]
    exact h1
  · simp only [FromPostableUserConfig, h1, foldl_bindings, List.append_nil]

theorem indexed_step (am : Alertmanager) (s : Step) (h : am.indexed) : (am.step s).indexed := by
  obtain ⟨legacyRoute, hlegacy, hmap⟩ := h
  cases s with
  | AddReceiver recv =>
    cases recv with
    | none => exact ⟨legacyRoute, hlegacy, hmap⟩
    | some recv => exact ⟨legacyRoute, hlegacy, hmap⟩
  | AddRoute route =>
    cases route with
    | none => exact ⟨legacyRoute, hlegacy, hmap⟩
    | some route =>
      refine ⟨legacyRoute.withRoutes (legacyRoute.Routes ++ [route]), ?_, ?_⟩
      · cases href : am.legacyRoute with
        | detached r =>
          have hr : r = legacyRoute := by simpa [Alertmanager.legacy, href] using hlegacy
          subst hr
          simp [Alertmanager.step, Alertmanager.AddRoute, href, Alertmanager.legacy]
        | child idx =>
          have hat : am.config.rootRoutes[idx]? = some legacyRoute := by
            simpa [Alertmanager.legacy, href] using hlegacy
          cases hroot : am.config.AlertmanagerConfig.Route with
          | none => simp [PostableUserConfig.rootRoutes, hroot] at hat
          | some root =>
            have hat2 : root.Routes[idx]? = some legacyRoute := by
              simpa [PostableUserConfig.rootRoutes, hroot] using hat
            simp [Alertmanager.step, Alertmanager.AddRoute, href, hroot, Alertmanager.legacy,
              PostableUserConfig.rootRoutes, PostableUserConfig.withRoute, withRoutes_Routes,
              hat2]
      · have hm : (am.step (Step.AddRoute (some route))).legacyReceiverToRoute =
            (route.Receiver, route) :: am.legacyReceiverToRoute := by
          simp only [Alertmanager.step, Alertmanager.AddRoute]
          cases am.legacyRoute with
          | detached r => rfl
          | child idx => cases am.config.AlertmanagerConfig.Route <;> rfl
        rw [hm, hmap, withRoutes_Routes]
        simp

theorem indexed_foldl (steps : List Step) :
    ∀ am : Alertmanager, am.indexed → (steps.foldl Alertmanager.step am).indexed := by
  induction steps with
  | nil => intro am h; exact h
  | cons s rest ih => intro am h; exact ih _ (indexed_step am s h)

theorem lookup_bindings_none (name : String) (l : List Route) :
    (l.map (fun r => (r.Receiver, r))).lookup name = none ↔ ∀ r ∈ l, r.Receiver ≠ name := by
  induction l with
  | nil => simp
  | cons a rest ih =>
    by_cases ha : a.Receiver = name
    · simp [List.lookup, ha]
    · have hb : (name == a.Receiver) = false := by
        simp only [beq_eq_false_iff_ne, ne_eq]; exact fun h => ha h.symm
      simp [List.lookup, hb, ih, ha]

theorem lookup_bindings_some (name : String) (l : List Route) (r : Route)
    (h : (l.map (fun r => (r.Receiver, r))).lookup name = some r) :
    r ∈ l ∧ r.Receiver = name := by
  induction l with
  | nil => simp at h
  | cons a rest ih =>
    by_cases ha : a.Receiver = name
    · simp only [List.map_cons, List.lookup, ha, beq_self_eq_true, Option.some.injEq] at h
      subst h
      exact ⟨List.mem_cons_self _ _, ha⟩
    · have hb : (name == a.Receiver) = false := by
        simp only [beq_eq_false_iff_ne, ne_eq]; exact fun h => ha h.symm
      simp only [List.map_cons, List.lookup, hb] at h
      exact ⟨List.mem_cons_of_mem _ (ih h).1, (ih h).2⟩

/-- In a model obtained by `FromPostableUserConfig` followed by any `AddRoute`
and `AddReceiver` calls, `GetLegacyRoute` finds nothing for a receiver name
exactly when no child of the legacy subtree has that receiver, and what it
finds is a child of the legacy subtree with that receiver. -/
theorem GetLegacyRoute_built (c : Option PostableUserConfig) (steps : List Step)
    (name : String) :
    ∃ legacyRoute, (built c steps).legacy = some legacyRoute ∧
      ((built c steps).GetLegacyRoute name = none ↔
        ∀ r ∈ legacyRoute.Routes, r.Receiver ≠ name) ∧
      ∀ r, (built c steps).GetLegacyRoute name = some r →
        r ∈ legacyRoute.Routes ∧ r.Receiver = name := by
  obtain ⟨legacyRoute, hlegacy, hmap⟩ :=
    indexed_foldl steps _ (indexed_FromPostableUserConfig c)
  refine ⟨legacyRoute, hlegacy, ?_, ?_⟩
  · unfold Alertmanager.GetLegacyRoute
    rw [show (built c steps).legacyReceiverToRoute = _ from hmap, ← List.map_reverse,
      lookup_bindings_none]
    simp
  · intro r hr
    unfold Alertmanager.GetLegacyRoute at hr
    rw [show (built c steps).legacyReceiverToRoute = _ from hmap, ← List.map_reverse] at hr
    have := lookup_bindings_some name _ r hr
    exact ⟨by simpa using this.1, this.2⟩

end models

namespace featuremgmt

/-! ## Registering flags -/

theorem leastStable_ge (name : String) (flags : List FeatureFlag) :
    ∀ state : Int, state ≤ leastStable name state flags := by
  unfold leastStable
  induction flags with
  | nil => intro state; simp
  | cons add rest ih =>
    intro state
    by_cases h : (add.Name == name) = true
    · simp only [List.filter, h, List.foldl]
      exact le_trans (le_max_left _ _) (ih _)
    · have hf : (add.Name == name) = false := by simpa using h
      simp only [List.filter, hf]
      exact ih state

theorem leastStable_cons_same (add : FeatureFlag) (state : Int) (rest : List FeatureFlag) :
    leastStable add.Name state (add :: rest) = leastStable add.Name (max state add.State) rest := by
  simp [leastStable, List.filter]

theorem leastStable_cons_other (name : String) (add : FeatureFlag) (state : Int)
    (rest : List FeatureFlag) (h : add.Name ≠ name) :
    leastStable name state (add :: rest) = leastStable name state rest := by
  have hf : (add.Name == name) = false := by simpa using h
  simp [leastStable, List.filter, hf]

theorem merge_State (flag add : FeatureFlag) :
    (registerFlags.merge flag add).State = max flag.State add.State := by
  simp only [registerFlags.merge]
  by_cases h : add.State > flag.State
  · simp [h, max_eq_right (le_of_lt h)]
  · simp [h, max_eq_left (not_lt.mp h)]

theorem registerFlags_spec (flags : List FeatureFlag) :
    ∀ (fm : FeatureManager) (m : String → Option FeatureFlag), fm.flags = some m →
      ∃ fm2 m2, fm.registerFlags flags = some fm2 ∧ fm2.flags = some m2 ∧
        fm2.isDevMod = fm.isDevMod ∧ m2 "" = m "" ∧
        ∀ name flag, name ≠ "" → m name = some flag →
          ∃ flag2, m2 name = some flag2 ∧
            flag2.State = leastStable name flag.State flags ∧
            (flag.RequiresDevMode = true → flag2.RequiresDevMode = true) ∧
            (flag.RequiresLicense = true → flag2.RequiresLicense = true) ∧
            (flag.RequiresRestart = true → flag2.RequiresRestart = true) := by
  induction flags with
  | nil =>
    intro fm m hm
    exact ⟨fm, m, rfl, hm, rfl, rfl, fun name flag _ h =>
      ⟨flag, h, by simp [leastStable], id, id, id⟩⟩
  | cons add rest ih =>
    intro fm m hm
    by_cases hempty : add.Name = ""
    · obtain ⟨fm2, m2, h1, h2, h3, h4, h5⟩ := ih fm m hm
      refine ⟨fm2, m2, by simp [FeatureManager.registerFlags, hempty, h1], h2, h3, h4, ?_⟩
      intro name flag hname hflag
      obtain ⟨flag2, k1, k2, k3⟩ := h5 name flag hname hflag
      refine ⟨flag2, k1, ?_, k3⟩
      rw [k2, leastStable_cons_other name add _ rest (by rw [hempty]; exact Ne.symm hname)]
    · cases hlook : m add.Name with
      | none =>
        obtain ⟨fm2, m2, h1, h2, h3, h4, h5⟩ :=
          ih { fm with flags := some (assign m add.Name add) } (assign m add.Name add) rfl
        refine ⟨fm2, m2, by simp [FeatureManager.registerFlags, hempty, hm, hlook, h1], h2, h3,
          ?_, ?_⟩
        · rw [h4]; simp [assign, Ne.symm hempty]
        · intro name flag hname hflag
          have hne : add.Name ≠ name := by
            intro h; rw [h] at hlook; rw [hlook] at hflag; cases hflag
          obtain ⟨flag2, k1, k2, k3⟩ := h5 name flag hname
            (by simp [assign, Ne.symm hne, hflag])
          refine ⟨flag2, k1, ?_, k3⟩
          rw [k2, leastStable_cons_other name add _ rest hne]
      | some old =>
        obtain ⟨fm2, m2, h1, h2, h3, h4, h5⟩ :=
          ih { fm with flags := some (assign m add.Name (registerFlags.merge old add)) }
            (assign m add.Name (registerFlags.merge old add)) rfl
        refine ⟨fm2, m2, by simp [FeatureManager.registerFlags, hempty, hm, hlook, h1], h2, h3,
          ?_, ?_⟩
        · rw [h4]; simp [assign, Ne.symm hempty]
        · intro name flag hname hflag
          by_cases hsame : add.Name = name
          · subst hsame
            rw [hlook] at hflag
            simp only [Option.some.injEq] at hflag
            subst hflag
            obtain ⟨flag2, k1, k2, k3, k4, k5⟩ := h5 add.Name (registerFlags.merge old add) hname
              (by simp [assign])
            refine ⟨flag2, k1, ?_, ?_, ?_, ?_⟩
            · rw [k2, leastStable_cons_same, merge_State]
            · intro h; exact k3 (by simp [registerFlags.merge, h])
            · intro h; exact k4 (by simp [registerFlags.merge, h])
            · intro h; exact k5 (by simp [registerFlags.merge, h])
          · obtain ⟨flag2, k1, k2, k3⟩ := h5 name flag hname
              (by simp [assign, Ne.symm hsame, hflag])
            refine ⟨flag2, k1, ?_, k3⟩
            rw [k2, leastStable_cons_other name add _ rest hsame]

/-- A nil registry has no name registered; on it `registerFlags` returns only
when it has nothing to register, and then leaves the manager as it is. -/
theorem registerFlags_nil_map (flags : List FeatureFlag) :
    ∀ fm fm2 : FeatureManager, fm.flags = none → fm.registerFlags flags = some fm2 →
      fm2 = fm := by
  induction flags with
  | nil => intro fm fm2 _ h; simpa [FeatureManager.registerFlags] using h.symm
  | cons add rest ih =>
    intro fm fm2 hnil h
    by_cases hempty : add.Name = ""
    · simp only [FeatureManager.registerFlags, hempty, if_true] at h
      exact ih fm fm2 hnil h
    · simp [FeatureManager.registerFlags, hempty, hnil] at h

/-- C18: on a registry (a map that is not nil) `registerFlags` returns, and
every name registered before the call is registered after it with a `State`
equal to the largest of its old `State` and the `State`s of the added flags of
that name, hence never lower, and with each of `RequiresDevMode`,
`RequiresLicense` and `RequiresRestart` true if it was true before.  Flags with
an empty name are not registered: the entry of the empty name is what it
was. -/
theorem registerFlags_monotone (fm : FeatureManager) (flags : List FeatureFlag)
    (m : String → Option FeatureFlag) (hm : fm.flags = some m) :
    ∃ fm2 m2, fm.registerFlags flags = some fm2 ∧ fm2.flags = some m2 ∧
      m2 "" = m "" ∧
      ∀ name flag, name ≠ "" → m name = some flag →
        ∃ flag2, m2 name = some flag2 ∧
          flag2.State = leastStable name flag.State flags ∧
          flag.State ≤ flag2.State ∧
          (flag.RequiresDevMode = true → flag2.RequiresDevMode = true) ∧
          (flag.RequiresLicense = true → flag2.RequiresLicense = true) ∧
          (flag.RequiresRestart = true → flag2.RequiresRestart = true) := by
  obtain ⟨fm2, m2, h1, h2, _, h4, h5⟩ := registerFlags_spec flags fm m hm
  refine ⟨fm2, m2, h1, h2, h4, ?_⟩
  intro name flag hname hflag
  obtain ⟨flag2, k1, k2, k3⟩ := h5 name flag hname hflag
  exact ⟨flag2, k1, k2, by rw [k2]; exact leastStable_ge name flags flag.State, k3⟩

theorem registerFlags_monotone_witness :
    ∃ fm2 m2,
      FeatureManager.registerFlags
        ⟨false, some (assign (fun _ => none) "live" ⟨"live", "", 1, "", true, false, false, "true"⟩)⟩
        [⟨"live", "new", 3, "", false, false, false, "true"⟩,
          ⟨"", "nameless", 4, "", false, false, false, "true"⟩,
          ⟨"live", "newer", 2, "", false, true, false, "true"⟩] = some fm2 ∧
      fm2.flags = some m2 ∧
      (m2 "live").map (fun flag => (flag.State, flag.RequiresDevMode)) = some (3, true) ∧
      m2 "" = none := by
  obtain ⟨fm2, m2, h1, h2, h3, h4⟩ := registerFlags_monotone
    ⟨false, some (assign (fun _ => none) "live" ⟨"live", "", 1, "", true, false, false, "true"⟩)⟩
    [⟨"live", "new", 3, "", false, false, false, "true"⟩,
      ⟨"", "nameless", 4, "", false, false, false, "true"⟩,
      ⟨"live", "newer", 2, "", false, true, false, "true"⟩]
    (assign (fun _ => none) "live" ⟨"live", "", 1, "", true, false, false, "true"⟩) rfl
  obtain ⟨flag2, k1, k2, _, k4, _⟩ := h4 "live" ⟨"live", "", 1, "", true, false, false, "true"⟩
    (by decide) (by simp [assign])
  refine ⟨fm2, m2, h1, h2, ?_, ?_⟩
  · rw [k1]
    have hs : flag2.State = 3 := by rw [k2]; decide
    simp [hs, k4 rfl]
  · rw [h3]; simp [assign]

end featuremgmt
